import Mathlib

/-!
Hospital data-sharing contract.

A shallow embedding of `hospital-contract.go`: the record type `HospitalData`, the
four transactions `ShareData`, `RequestAccess`, `GetData` and `GetAllData`, and the
ledger stub they talk to.

Modelling conventions.

* Go strings are Lean `String`s (sequences of Unicode scalar values, i.e. valid
  UTF-8 text); `==` on Go strings is equality of `String`s.
* A Go `error` is its message (`err.Error()`), `nil` is `none`; `fmt.Errorf` with
  `%s` / `%v` verbs is string concatenation.  The `fmt.Printf` log lines write to
  standard output only and are left out.
* The world state of the ledger is an association list from keys to stored values,
  kept in ascending key order by `World.put`.  The stub calls `GetState`,
  `PutState`, `GetStateByRange` and the iterator's `Next` can each fail; which
  calls fail is given by a `Stub` value.
* `json.Marshal` and `json.Unmarshal` are library calls; they are the two fields of
  a `Codec` over the type `β` of stored values.
* `strings.Split` (for a one-character separator) and `strings.TrimSpace` follow
  the Go standard library, with `unicode.IsSpace` as the set of trimmed runes.
-/

namespace HospitalContract

/-! ## Data model -/

/-- HospitalData represents hospital data with access control. -/
structure HospitalData where
  DataID : String
  HospitalA : String
  IPFSHash : String
  Description : String
  AllowedHospitals : String
deriving DecidableEq, Repr

/-- The serialisation used by the contract: `Marshal` is `json.Marshal` on a
`HospitalData`, `Unmarshal` is `json.Unmarshal` into a `HospitalData`; each
returns either a value or the error message. -/
structure Codec (β : Type) where
  Marshal : HospitalData → Except String β
  Unmarshal : β → Except String HospitalData

/-- The codec loses nothing: every record can be serialised, and deserialising
the result gives the record back (what `encoding/json` does for a struct of
string fields). -/
def Codec.Faithful {β : Type} (c : Codec β) : Prop :=
  ∀ r : HospitalData, ∃ b : β, c.Marshal r = .ok b ∧ c.Unmarshal b = .ok r

/-! ## The ledger stub -/

/-- The world state: key/value pairs in ascending key order. -/
abbrev World (β : Type) := List (String × β)

/-- The value stored under `key`, if any. -/
def World.get {β : Type} : World β → String → Option β
  | [], _ => none
  | (k, v) :: rest, key => if k = key then some v else World.get rest key

/-- Write `value` under `key`, replacing what was there and keeping key order
(the lexicographic order of the keys as sequences of code points, which is the
order of their UTF-8 bytes). -/
def World.put {β : Type} : World β → String → β → World β
  | [], key, value => [(key, value)]
  | (k, v) :: rest, key, value =>
    if key.data < k.data then (key, value) :: (k, v) :: rest
    else if key = k then (key, value) :: rest
    else (k, v) :: World.put rest key value

/-- The keys of the world state are strictly ascending. -/
def World.Ordered {β : Type} (w : World β) : Prop :=
  (w.map Prod.fst).Pairwise (fun a b => a.data < b.data)

/-- Which substrate calls fail, and with which error: `getStateErr key` for
`GetState(key)`, `putStateErr key value` for `PutState(key, value)`, `rangeErr`
for `GetStateByRange("", "")`, and `nextErr key` for the call of `Next` that
would deliver the entry stored under `key`. -/
structure Stub (β : Type) where
  getStateErr : String → Option String
  putStateErr : String → β → Option String
  rangeErr : Option String
  nextErr : String → Option String

/-- A stub none of whose calls fail. -/
def Stub.reliable {β : Type} : Stub β :=
  ⟨fun _ => none, fun _ _ => none, none, fun _ => none⟩

/-- The stub call `GetState(key)`: an error, or the stored value (`nil` when absent). -/
def Stub.GetState {β : Type} (stub : Stub β) (w : World β) (key : String) :
    Except String (Option β) :=
  match stub.getStateErr key with
  | some err => .error err
  | none => .ok (w.get key)

/-- The stub call `PutState(key, value)`: an error and no write, or the updated
world state. -/
def Stub.PutState {β : Type} (stub : Stub β) (w : World β) (key : String) (value : β) :
    Except String (World β) :=
  match stub.putStateErr key value with
  | some err => .error err
  | none => .ok (w.put key value)

/-- The stub call `GetStateByRange("", "")`: an error, or an iterator over the
whole world state in key order. -/
def Stub.GetStateByRange {β : Type} (stub : Stub β) (w : World β) :
    Except String (List (String × β)) :=
  match stub.rangeErr with
  | some err => .error err
  | none => .ok w

/-! ## Library functions on strings -/

/-- The Go function `unicode.IsSpace`: the Latin-1 spaces
`'\t', '\n', '\v', '\f', '\r', ' ', U+0085, U+00A0`, and beyond Latin-1 the
runes of the property `White_Space`. -/
def IsSpace (r : Char) : Bool :=
  if r.toNat ≤ 0xFF then
    r.toNat = 0x09 || r.toNat = 0x0A || r.toNat = 0x0B || r.toNat = 0x0C ||
      r.toNat = 0x0D || r.toNat = 0x20 || r.toNat = 0x85 || r.toNat = 0xA0
  else
    r.toNat = 0x1680 || (0x2000 ≤ r.toNat && r.toNat ≤ 0x200A) ||
      r.toNat = 0x2028 || r.toNat = 0x2029 || r.toNat = 0x202F ||
      r.toNat = 0x205F || r.toNat = 0x3000

/-- Drop the leading runes satisfying `f` (`strings.TrimLeftFunc`). -/
def trimLeftFunc (f : Char → Bool) : List Char → List Char
  | [] => []
  | c :: cs => if f c then trimLeftFunc f cs else c :: cs

/-- Drop the trailing runes satisfying `f` (`strings.TrimRightFunc`). -/
def trimRightFunc (f : Char → Bool) (s : List Char) : List Char :=
  (trimLeftFunc f s.reverse).reverse

/-- The Go function `strings.TrimSpace`: the string without its leading and
trailing white space. -/
def TrimSpace (s : String) : String :=
  ⟨trimRightFunc IsSpace (trimLeftFunc IsSpace s.data)⟩

/-- The scan of `strings.Split`: `cur` holds, reversed, the runes of the piece
being read. -/
def splitLoop (sep : Char) : List Char → List Char → List String
  | [], cur => [⟨cur.reverse⟩]
  | c :: cs, cur =>
    if c = sep then ⟨cur.reverse⟩ :: splitLoop sep cs [] else splitLoop sep cs (c :: cur)

/-- The Go function `strings.Split(s, sep)` for a separator of one character:
the pieces of `s` between the occurrences of `sep`, in order; a string with `n`
separators gives `n + 1` pieces. -/
def Split (s : String) (sep : Char) : List String :=
  splitLoop sep s.data []

/-! ## Access evaluation -/

/-- The loop `for _, allowedHospital := range allowedList` of `RequestAccess`,
`GetData` and `GetAllData`: stop with `true` at the first element that equals
`hospital` after `strings.TrimSpace`, end with `false` when the list is
exhausted. -/
def accessLoop (hospital : String) : List String → Bool
  | [] => false
  | allowedHospital :: rest =>
    if TrimSpace allowedHospital = hospital then true else accessLoop hospital rest

/-- The access check of the three read transactions:
`strings.Split(hospitalData.AllowedHospitals, ",")` followed by the loop. -/
def hasAccess (allowedHospitals hospital : String) : Bool :=
  accessLoop hospital (Split allowedHospitals ',')

/-- Reference definition of the access evaluator, after the specification: the
party is authorized when some element of `allowed`, split on the comma, equals
the party once its leading and trailing white space is removed. -/
def isAuthorized (allowed party : String) : Prop :=
  ∃ token ∈ allowed.data.splitOn ',',
    (token.dropWhile IsSpace).rdropWhile IsSpace = party.data

instance isAuthorized.decide (allowed party : String) : Decidable (isAuthorized allowed party) := by
  unfold isAuthorized
  infer_instance

/-! ## The transactions -/

/-- ShareData allows Hospital A to share data (IPFS hash) with specific
hospitals.  Returns the error (`none` for `nil`) and the world state after the
transaction. -/
def ShareData {β : Type} (c : Codec β) (stub : Stub β) (w : World β)
    (dataID hospitalA ipfsHash description allowedHospitals : String) :
    Option String × World β :=
  match stub.GetState w dataID with
  | .error err => (some ("failed to read from world state: " ++ err), w)
  | .ok (some _) => (some ("data with ID " ++ dataID ++ " already exists"), w)
  | .ok none =>
    let hospitalData : HospitalData :=
      ⟨dataID, hospitalA, ipfsHash, description, allowedHospitals⟩
    match c.Marshal hospitalData with
    | .error err => (some ("failed to marshal hospital data: " ++ err), w)
    | .ok dataJSON =>
      match stub.PutState w dataID dataJSON with
      | .error err => (some ("failed to put hospital data in world state: " ++ err), w)
      | .ok w1 => (none, w1)

/-- RequestAccess allows Hospital B to check if they have access to data.
Returns the pair `(bool, error)` of the Go function and the world state after
the transaction. -/
def RequestAccess {β : Type} (c : Codec β) (stub : Stub β) (w : World β)
    (dataID hospitalB : String) : (Bool × Option String) × World β :=
  match stub.GetState w dataID with
  | .error err => ((false, some ("failed to read from world state: " ++ err)), w)
  | .ok none => ((false, some ("data with ID " ++ dataID ++ " does not exist")), w)
  | .ok (some dataJSON) =>
    match c.Unmarshal dataJSON with
    | .error err => ((false, some ("failed to unmarshal hospital data: " ++ err)), w)
    | .ok hospitalData =>
      if hasAccess hospitalData.AllowedHospitals hospitalB then ((true, none), w)
      else ((false, none), w)

/-- GetData allows authorized hospitals to retrieve the IPFS hash.  Returns the
pair `(*HospitalData, error)` of the Go function (`none` for a `nil` pointer) and
the world state after the transaction. -/
def GetData {β : Type} (c : Codec β) (stub : Stub β) (w : World β)
    (dataID requestingHospital : String) :
    (Option HospitalData × Option String) × World β :=
  match stub.GetState w dataID with
  | .error err => ((none, some ("failed to read from world state: " ++ err)), w)
  | .ok none => ((none, some ("data with ID " ++ dataID ++ " does not exist")), w)
  | .ok (some dataJSON) =>
    match c.Unmarshal dataJSON with
    | .error err => ((none, some ("failed to unmarshal hospital data: " ++ err)), w)
    | .ok hospitalData =>
      if hasAccess hospitalData.AllowedHospitals requestingHospital then
        ((some hospitalData, none), w)
      else
        ((none, some ("hospital " ++ requestingHospital ++
          " does not have permission to access data " ++ dataID)), w)

/-- The loop `for resultsIterator.HasNext()` of `GetAllData` over the entries
the iterator still has to deliver, with `accessibleData` the records appended
so far: a failing `Next` or a value that does not deserialize ends the loop with
`(nil, err)`. -/
def scanLoop {β : Type} (c : Codec β) (stub : Stub β) (requestingHospital : String) :
    List (String × β) → List HospitalData → List HospitalData × Option String
  | [], accessibleData => (accessibleData, none)
  | (key, value) :: rest, accessibleData =>
    match stub.nextErr key with
    | some err => ([], some err)
    | none =>
      match c.Unmarshal value with
      | .error err => ([], some err)
      | .ok hospitalData =>
        if hasAccess hospitalData.AllowedHospitals requestingHospital then
          scanLoop c stub requestingHospital rest (accessibleData ++ [hospitalData])
        else
          scanLoop c stub requestingHospital rest accessibleData

/-- GetAllData returns only data that the requesting hospital can access.
Returns the pair `([]*HospitalData, error)` of the Go function (the `nil` slice
is the empty list) and the world state after the transaction. -/
def GetAllData {β : Type} (c : Codec β) (stub : Stub β) (w : World β)
    (requestingHospital : String) : (List HospitalData × Option String) × World β :=
  match stub.GetStateByRange w with
  | .error err => (([], some err), w)
  | .ok resultsIterator => (scanLoop c stub requestingHospital resultsIterator [], w)

/-! ## A concrete codec -/

/-- A stored value of the concrete codec: the serialisation of a record, or
bytes that do not deserialize to a record. -/
inductive Stored where
  | encoded (r : HospitalData)
  | malformed (raw : String)
deriving DecidableEq, Repr

/-- A codec on `Stored` values, used to run the transactions on concrete world
states: every record serialises, and exactly the `encoded` values deserialize. -/
def storedCodec : Codec Stored :=
  ⟨fun r => .ok (.encoded r),
   fun b =>
    match b with
    | .encoded r => .ok r
    | .malformed raw => .error ("invalid character in " ++ raw)⟩


/-! ## Concrete records and world states -/

/-- A record whose allow-list is `"B, C ,D"`. -/
def recBCD : HospitalData := ⟨"d1", "A", "hash", "notes", "B, C ,D"⟩

/-- The world state holding `recBCD` under its id. -/
def worldBCD : World Stored := [("d1", .encoded recBCD)]

/-- The records of the enumeration example: allow-lists `"X"`, `"Y"` and `"X,Y"`. -/
def R1 : HospitalData := ⟨"r1", "A", "h1", "first", "X"⟩

/-- The second record of the enumeration example. -/
def R2 : HospitalData := ⟨"r2", "A", "h2", "second", "Y"⟩

/-- The third record of the enumeration example. -/
def R3 : HospitalData := ⟨"r3", "B", "h3", "third", "X,Y"⟩

/-- The world state holding `R1`, `R2` and `R3` under their ids. -/
def worldXY : World Stored := [("r1", .encoded R1), ("r2", .encoded R2), ("r3", .encoded R3)]

/-- A world state in which `recBCD` is followed by a value that does not
deserialize. -/
def worldBroken : World Stored := [("d1", .encoded recBCD), ("d2", .malformed "\x7b")]

/-- A record equal to `recBCD` but for its owner, pointer, description and
allow-list, which is `"B"`. -/
def recB : HospitalData := ⟨"d1", "Q", "other", "text", "B"⟩

/-- The world state holding `recB` under the id of `recBCD`. -/
def worldB : World Stored := [("d1", .encoded recB)]

/-- A stored entry `e` deserializes to the record of `kr`, under the same key. -/
def DecodesTo {β : Type} (c : Codec β) (e : String × β) (kr : String × HospitalData) : Prop :=
  kr.1 = e.1 ∧ c.Unmarshal e.2 = .ok kr.2

/-! ## Sequences of transactions -/

/-- A call of one of the four transactions, with its arguments. -/
inductive Call where
  | shareData (dataID hospitalA ipfsHash description allowedHospitals : String)
  | requestAccess (dataID hospitalB : String)
  | getData (dataID requestingHospital : String)
  | getAllData (requestingHospital : String)
deriving DecidableEq, Repr

/-- The world state a call leaves when it runs against `stub`. -/
def Call.run {β : Type} (c : Codec β) (stub : Stub β) (w : World β) : Call → World β
  | .shareData dataID hospitalA ipfsHash description allowedHospitals =>
    (HospitalContract.ShareData c stub w dataID hospitalA ipfsHash description
      allowedHospitals).2
  | .requestAccess dataID hospitalB => (HospitalContract.RequestAccess c stub w dataID hospitalB).2
  | .getData dataID requestingHospital =>
    (HospitalContract.GetData c stub w dataID requestingHospital).2
  | .getAllData requestingHospital => (HospitalContract.GetAllData c stub w requestingHospital).2

/-- The world state after a finite sequence of calls, each with the stub it
runs against. -/
def execute {β : Type} (c : Codec β) : World β → List (Stub β × Call) → World β
  | w, [] => w
  | w, (stub, call) :: rest => execute c (call.run c stub w) rest

/-- Key/id consistency of a world state: every stored value deserializes to a
record whose `DataID` is the key it is stored under, and no key occurs twice. -/
def World.Consistent {β : Type} (c : Codec β) (w : World β) : Prop :=
  (∀ e ∈ w, ∃ r, c.Unmarshal e.2 = .ok r ∧ r.DataID = e.1) ∧ (w.map Prod.fst).Nodup

/-! ## Predicates on allow-lists and parties -/

/-- The trimmed elements of an allow-list, in order: the pieces between the
commas, each without its leading and trailing white space. -/
def trimmedElements (allowed : String) : List (List Char) :=
  (allowed.data.splitOn ',').map (fun token => (token.dropWhile IsSpace).rdropWhile IsSpace)

/-- The allow-list has no valid entry: every element is empty after trimming. -/
def NoValidEntries (allowed : String) : Prop :=
  ∀ element ∈ trimmedElements allowed, element = []

instance NoValidEntries.decide (allowed : String) : Decidable (NoValidEntries allowed) := by
  unfold NoValidEntries
  infer_instance

/-- The party contains a comma, or begins or ends with a white space character. -/
def NeverListed (party : String) : Prop :=
  ',' ∈ party.data ∨ party.data.head?.map IsSpace = some true ∨
    party.data.getLast?.map IsSpace = some true

instance NeverListed.decide (party : String) : Decidable (NeverListed party) := by
  unfold NeverListed
  infer_instance

/-! ## More concrete records and world states -/

/-- The record of the end-to-end scenario. -/
def rec1 : HospitalData := ⟨"rec1", "HospA", "hash123", "notes", "HospB, HospC"⟩

/-- A record whose allow-list is the empty string. -/
def recNobody : HospitalData := ⟨"e1", "A", "hash", "notes", ""⟩

/-- The world state holding `recNobody` under its id. -/
def worldNobody : World Stored := [("e1", .encoded recNobody)]

/-- The record `recBCD` with another owner. -/
def recBCDOwner : HospitalData := ⟨"d1", "Z", "hash", "notes", "B, C ,D"⟩

/-- The world state holding `recBCDOwner` under `"d1"`. -/
def worldBCDOwner : World Stored := [("d1", .encoded recBCDOwner)]

/-- A sequence of calls, all against a reliable stub: share `R2`, share `R1`,
try to share under the id of `R1` again, and read. -/
def sampleCalls : List (Stub Stored × Call) :=
  [(Stub.reliable, .shareData "r2" "A" "h2" "second" "Y"),
   (Stub.reliable, .shareData "r1" "A" "h1" "first" "X"),
   (Stub.reliable, .shareData "r1" "Q" "other" "text" "Y"),
   (Stub.reliable, .getData "r1" "X"),
   (Stub.reliable, .getAllData "Y")]

/-! ## Lemmas on the library functions -/

theorem trimLeftFunc_eq_dropWhile (f : Char → Bool) (s : List Char) :
    trimLeftFunc f s = s.dropWhile f := by
  induction s with
  | nil => rfl
  | cons c cs ih =>
    by_cases h : f c = true
    · simp [trimLeftFunc, List.dropWhile, h, ih]
    · simp [trimLeftFunc, List.dropWhile, h]

theorem trimRightFunc_eq_rdropWhile (f : Char → Bool) (s : List Char) :
    trimRightFunc f s = s.rdropWhile f := by
  simp [trimRightFunc, List.rdropWhile, trimLeftFunc_eq_dropWhile]

theorem TrimSpace_data (s : String) :
    (TrimSpace s).data = (s.data.dropWhile IsSpace).rdropWhile IsSpace := by
  simp [TrimSpace, trimRightFunc_eq_rdropWhile, trimLeftFunc_eq_dropWhile]

theorem splitLoop_eq_go (sep : Char) (cs cur : List Char) :
    splitLoop sep cs cur = (List.splitOnP.go (fun x => x == sep) cs cur).map String.mk := by
  induction cs generalizing cur with
  | nil => simp [splitLoop, List.splitOnP.go]
  | cons c cs ih =>
    by_cases h : c = sep
    · simp [splitLoop, List.splitOnP.go, h, ih]
    · simp [splitLoop, List.splitOnP.go, h, ih]

theorem Split_eq_splitOn (s : String) (sep : Char) :
    Split s sep = (s.data.splitOn sep).map String.mk := by
  simp [Split, splitLoop_eq_go, List.splitOn, List.splitOnP]

theorem accessLoop_iff (hospital : String) (allowedList : List String) :
    accessLoop hospital allowedList = true ↔
      ∃ allowedHospital ∈ allowedList, TrimSpace allowedHospital = hospital := by
  induction allowedList with
  | nil => simp [accessLoop]
  | cons a rest ih =>
    by_cases h : TrimSpace a = hospital
    · simp [accessLoop, h]
    · simp [accessLoop, h, ih]

theorem hasAccess_iff_isAuthorized (allowed party : String) :
    hasAccess allowed party = true ↔ isAuthorized allowed party := by
  unfold hasAccess isAuthorized
  rw [accessLoop_iff, Split_eq_splitOn]
  constructor
  · rintro ⟨t, ht, hEq⟩
    obtain ⟨token, htok, rfl⟩ := List.mem_map.1 ht
    exact ⟨token, htok, by rw [← hEq, TrimSpace_data]⟩
  · rintro ⟨token, htok, hEq⟩
    refine ⟨⟨token⟩, List.mem_map.2 ⟨token, htok, rfl⟩, ?_⟩
    apply String.ext
    rw [TrimSpace_data, hEq]


theorem data_head_append (s t : String) (ch : Char) (h : s.data.head? = some ch) :
    (s ++ t).data.head? = some ch := by
  rw [String.data_append]
  cases hs : s.data with
  | nil => rw [hs] at h; simp at h
  | cons a l => rw [hs] at h; simpa using h

theorem notFound_ne_forbidden (dataID requestingHospital dataID2 : String) :
    "data with ID " ++ dataID ++ " does not exist" ≠
      "hospital " ++ requestingHospital ++ " does not have permission to access data " ++ dataID2 := by
  intro h
  have h1 : ("data with ID " ++ dataID ++ " does not exist").data.head? = some 'd' :=
    data_head_append _ _ _ (data_head_append _ _ _ rfl)
  have h2 : ("hospital " ++ requestingHospital ++ " does not have permission to access data "
      ++ dataID2).data.head? = some 'h' :=
    data_head_append _ _ _ (data_head_append _ _ _ (data_head_append _ _ _ rfl))
  rw [h, h2] at h1
  exact absurd h1 (by decide)

theorem unmarshalFailed_ne_forbidden (err requestingHospital dataID2 : String) :
    "failed to unmarshal hospital data: " ++ err ≠
      "hospital " ++ requestingHospital ++ " does not have permission to access data " ++ dataID2 := by
  intro h
  have h1 : ("failed to unmarshal hospital data: " ++ err).data.head? = some 'f' :=
    data_head_append _ _ _ rfl
  have h2 : ("hospital " ++ requestingHospital ++ " does not have permission to access data "
      ++ dataID2).data.head? = some 'h' :=
    data_head_append _ _ _ (data_head_append _ _ _ (data_head_append _ _ _ rfl))
  rw [h, h2] at h1
  exact absurd h1 (by decide)

/-! ## The world state -/

theorem World.get_put_self {β : Type} (w : World β) (key : String) (value : β) :
    (w.put key value).get key = some value := by
  induction w with
  | nil => simp [World.put, World.get]
  | cons e rest ih =>
    obtain ⟨k, v⟩ := e
    by_cases hlt : key.data < k.data
    · simp [World.put, World.get, hlt]
    · by_cases heq : key = k
      · simp [World.put, World.get, hlt, heq]
      · have hne : ¬ k = key := fun h => heq h.symm
        simp [World.put, World.get, hlt, heq, hne, ih]

theorem World.get_put_other {β : Type} (w : World β) (key other : String) (value : β)
    (hne : other ≠ key) : (w.put key value).get other = w.get other := by
  have hne2 : ¬ key = other := fun h => hne h.symm
  induction w with
  | nil => simp [World.put, World.get, hne2]
  | cons e rest ih =>
    obtain ⟨k, v⟩ := e
    by_cases hlt : key.data < k.data
    · simp [World.put, World.get, hlt, hne2]
    · by_cases heq : key = k
      · subst heq
        simp [World.put, World.get, hlt, hne2]
      · by_cases hk : k = other
        · subst hk
          simp [World.put, World.get, hlt, hne2]
        · simp [World.put, World.get, hlt, heq, hk, ih]

theorem World.get_put {β : Type} (w : World β) (key other : String) (value : β) :
    (w.put key value).get other = if other = key then some value else w.get other := by
  by_cases h : other = key
  · rw [if_pos h, h, World.get_put_self]
  · rw [if_neg h, World.get_put_other w key other value h]

/-! ## ShareData, case by case -/

theorem GetState_ok {β : Type} (stub : Stub β) (w : World β) (key : String)
    (hread : stub.getStateErr key = none) : stub.GetState w key = .ok (w.get key) := by
  simp [Stub.GetState, hread]

theorem ShareData_readFailed {β : Type} (c : Codec β) (stub : Stub β) (w : World β)
    (dataID hospitalA ipfsHash description allowedHospitals err : String)
    (hread : stub.getStateErr dataID = some err) :
    ShareData c stub w dataID hospitalA ipfsHash description allowedHospitals =
      (some ("failed to read from world state: " ++ err), w) := by
  simp [ShareData, Stub.GetState, hread]

theorem ShareData_duplicate {β : Type} (c : Codec β) (stub : Stub β) (w : World β)
    (dataID hospitalA ipfsHash description allowedHospitals : String) (existing : β)
    (hread : stub.getStateErr dataID = none) (hget : w.get dataID = some existing) :
    ShareData c stub w dataID hospitalA ipfsHash description allowedHospitals =
      (some ("data with ID " ++ dataID ++ " already exists"), w) := by
  simp [ShareData, GetState_ok stub w dataID hread, hget]

theorem ShareData_marshalFailed {β : Type} (c : Codec β) (stub : Stub β) (w : World β)
    (dataID hospitalA ipfsHash description allowedHospitals err : String)
    (hread : stub.getStateErr dataID = none) (hget : w.get dataID = none)
    (hmar : c.Marshal ⟨dataID, hospitalA, ipfsHash, description, allowedHospitals⟩ =
      .error err) :
    ShareData c stub w dataID hospitalA ipfsHash description allowedHospitals =
      (some ("failed to marshal hospital data: " ++ err), w) := by
  simp [ShareData, GetState_ok stub w dataID hread, hget, hmar]

theorem ShareData_writeFailed {β : Type} (c : Codec β) (stub : Stub β) (w : World β)
    (dataID hospitalA ipfsHash description allowedHospitals err : String) (dataJSON : β)
    (hread : stub.getStateErr dataID = none) (hget : w.get dataID = none)
    (hmar : c.Marshal ⟨dataID, hospitalA, ipfsHash, description, allowedHospitals⟩ =
      .ok dataJSON)
    (hwrite : stub.putStateErr dataID dataJSON = some err) :
    ShareData c stub w dataID hospitalA ipfsHash description allowedHospitals =
      (some ("failed to put hospital data in world state: " ++ err), w) := by
  simp [ShareData, GetState_ok stub w dataID hread, hget, hmar, Stub.PutState, hwrite]

theorem ShareData_written {β : Type} (c : Codec β) (stub : Stub β) (w : World β)
    (dataID hospitalA ipfsHash description allowedHospitals : String) (dataJSON : β)
    (hread : stub.getStateErr dataID = none) (hget : w.get dataID = none)
    (hmar : c.Marshal ⟨dataID, hospitalA, ipfsHash, description, allowedHospitals⟩ =
      .ok dataJSON)
    (hwrite : stub.putStateErr dataID dataJSON = none) :
    ShareData c stub w dataID hospitalA ipfsHash description allowedHospitals =
      (none, w.put dataID dataJSON) := by
  simp [ShareData, GetState_ok stub w dataID hread, hget, hmar, Stub.PutState, hwrite]

/-- The ways `ShareData` can end: one of the four failures, with the world
state as it was, or a single write of the serialized record under `dataID`. -/
theorem ShareData_cases {β : Type} (c : Codec β) (stub : Stub β) (w : World β)
    (dataID hospitalA ipfsHash description allowedHospitals : String) :
    (∃ err, stub.getStateErr dataID = some err ∧
      ShareData c stub w dataID hospitalA ipfsHash description allowedHospitals =
        (some ("failed to read from world state: " ++ err), w)) ∨
    (∃ existing, stub.getStateErr dataID = none ∧ w.get dataID = some existing ∧
      ShareData c stub w dataID hospitalA ipfsHash description allowedHospitals =
        (some ("data with ID " ++ dataID ++ " already exists"), w)) ∨
    (∃ err, stub.getStateErr dataID = none ∧ w.get dataID = none ∧
      c.Marshal ⟨dataID, hospitalA, ipfsHash, description, allowedHospitals⟩ = .error err ∧
      ShareData c stub w dataID hospitalA ipfsHash description allowedHospitals =
        (some ("failed to marshal hospital data: " ++ err), w)) ∨
    (∃ dataJSON err, stub.getStateErr dataID = none ∧ w.get dataID = none ∧
      c.Marshal ⟨dataID, hospitalA, ipfsHash, description, allowedHospitals⟩ = .ok dataJSON ∧
      stub.putStateErr dataID dataJSON = some err ∧
      ShareData c stub w dataID hospitalA ipfsHash description allowedHospitals =
        (some ("failed to put hospital data in world state: " ++ err), w)) ∨
    (∃ dataJSON, stub.getStateErr dataID = none ∧ w.get dataID = none ∧
      c.Marshal ⟨dataID, hospitalA, ipfsHash, description, allowedHospitals⟩ = .ok dataJSON ∧
      stub.putStateErr dataID dataJSON = none ∧
      ShareData c stub w dataID hospitalA ipfsHash description allowedHospitals =
        (none, w.put dataID dataJSON)) := by
  cases hread : stub.getStateErr dataID with
  | some err => exact Or.inl ⟨err, rfl, ShareData_readFailed c stub w _ _ _ _ _ err hread⟩
  | none =>
    cases hget : w.get dataID with
    | some existing =>
      exact Or.inr (Or.inl ⟨existing, rfl, rfl,
        ShareData_duplicate c stub w _ _ _ _ _ existing hread hget⟩)
    | none =>
      cases hmar : c.Marshal ⟨dataID, hospitalA, ipfsHash, description, allowedHospitals⟩ with
      | error err =>
        exact Or.inr (Or.inr (Or.inl ⟨err, rfl, rfl, rfl,
          ShareData_marshalFailed c stub w _ _ _ _ _ err hread hget hmar⟩))
      | ok dataJSON =>
        cases hwrite : stub.putStateErr dataID dataJSON with
        | some err =>
          exact Or.inr (Or.inr (Or.inr (Or.inl ⟨dataJSON, err, rfl, rfl, rfl, hwrite,
            ShareData_writeFailed c stub w _ _ _ _ _ err dataJSON hread hget hmar hwrite⟩)))
        | none =>
          exact Or.inr (Or.inr (Or.inr (Or.inr ⟨dataJSON, rfl, rfl, rfl, hwrite,
            ShareData_written c stub w _ _ _ _ _ dataJSON hread hget hmar hwrite⟩)))

/-! ## The read transactions, case by case -/

theorem RequestAccess_absent {β : Type} (c : Codec β) (stub : Stub β) (w : World β)
    (dataID p : String) (hread : stub.getStateErr dataID = none)
    (hget : w.get dataID = none) :
    RequestAccess c stub w dataID p =
      ((false, some ("data with ID " ++ dataID ++ " does not exist")), w) := by
  simp [RequestAccess, GetState_ok stub w dataID hread, hget]

theorem RequestAccess_undecodable {β : Type} (c : Codec β) (stub : Stub β) (w : World β)
    (dataID p : String) (b : β) (err : String) (hread : stub.getStateErr dataID = none)
    (hget : w.get dataID = some b) (hdec : c.Unmarshal b = .error err) :
    RequestAccess c stub w dataID p =
      ((false, some ("failed to unmarshal hospital data: " ++ err)), w) := by
  simp [RequestAccess, GetState_ok stub w dataID hread, hget, hdec]

theorem RequestAccess_stored {β : Type} (c : Codec β) (stub : Stub β) (w : World β)
    (dataID p : String) (b : β) (r : HospitalData) (hread : stub.getStateErr dataID = none)
    (hget : w.get dataID = some b) (hdec : c.Unmarshal b = .ok r) :
    RequestAccess c stub w dataID p = ((hasAccess r.AllowedHospitals p, none), w) := by
  by_cases h : hasAccess r.AllowedHospitals p = true
  · simp [RequestAccess, GetState_ok stub w dataID hread, hget, hdec, h]
  · simp [RequestAccess, GetState_ok stub w dataID hread, hget, hdec, h]

theorem GetData_absent {β : Type} (c : Codec β) (stub : Stub β) (w : World β)
    (dataID p : String) (hread : stub.getStateErr dataID = none)
    (hget : w.get dataID = none) :
    GetData c stub w dataID p =
      ((none, some ("data with ID " ++ dataID ++ " does not exist")), w) := by
  simp [GetData, GetState_ok stub w dataID hread, hget]

theorem GetData_undecodable {β : Type} (c : Codec β) (stub : Stub β) (w : World β)
    (dataID p : String) (b : β) (err : String) (hread : stub.getStateErr dataID = none)
    (hget : w.get dataID = some b) (hdec : c.Unmarshal b = .error err) :
    GetData c stub w dataID p =
      ((none, some ("failed to unmarshal hospital data: " ++ err)), w) := by
  simp [GetData, GetState_ok stub w dataID hread, hget, hdec]

theorem GetData_granted {β : Type} (c : Codec β) (stub : Stub β) (w : World β)
    (dataID p : String) (b : β) (r : HospitalData) (hread : stub.getStateErr dataID = none)
    (hget : w.get dataID = some b) (hdec : c.Unmarshal b = .ok r)
    (h : hasAccess r.AllowedHospitals p = true) :
    GetData c stub w dataID p = ((some r, none), w) := by
  simp [GetData, GetState_ok stub w dataID hread, hget, hdec, h]

theorem GetData_denied {β : Type} (c : Codec β) (stub : Stub β) (w : World β)
    (dataID p : String) (b : β) (r : HospitalData) (hread : stub.getStateErr dataID = none)
    (hget : w.get dataID = some b) (hdec : c.Unmarshal b = .ok r)
    (h : hasAccess r.AllowedHospitals p = false) :
    GetData c stub w dataID p =
      ((none, some ("hospital " ++ p ++ " does not have permission to access data " ++
        dataID)), w) := by
  simp [GetData, GetState_ok stub w dataID hread, hget, hdec, h]

/-! ## The enumeration loop -/

theorem World.mem_of_get {β : Type} (w : World β) (key : String) (b : β)
    (h : w.get key = some b) : (key, b) ∈ w := by
  induction w with
  | nil => simp [World.get] at h
  | cons e rest ih =>
    obtain ⟨k, v⟩ := e
    by_cases hk : k = key
    · simp [World.get, hk] at h
      simp [hk, h]
    · simp [World.get, hk] at h
      exact List.mem_cons_of_mem _ (ih h)

theorem exists_decoded {β : Type} (c : Codec β) (l : List (String × β))
    (hdec : ∀ e ∈ l, ∃ r, c.Unmarshal e.2 = .ok r) :
    ∃ entries, List.Forall₂ (DecodesTo c) l entries := by
  induction l with
  | nil => exact ⟨[], List.Forall₂.nil⟩
  | cons e rest ih =>
    obtain ⟨r, hr⟩ := hdec e (List.mem_cons_self _ _)
    obtain ⟨entries, hrest⟩ := ih (fun x hx => hdec x (List.mem_cons_of_mem _ hx))
    exact ⟨(e.1, r) :: entries, List.Forall₂.cons ⟨rfl, hr⟩ hrest⟩

theorem decoded_keys {β : Type} (c : Codec β) (l : List (String × β))
    (entries : List (String × HospitalData)) (h : List.Forall₂ (DecodesTo c) l entries) :
    entries.map Prod.fst = l.map Prod.fst := by
  induction h with
  | nil => rfl
  | cons hhead _ ih => simp [hhead.1, ih]

theorem scanLoop_decoded {β : Type} (c : Codec β) (stub : Stub β) (p : String)
    (l : List (String × β)) (entries : List (String × HospitalData))
    (h : List.Forall₂ (DecodesTo c) l entries)
    (hnext : ∀ e ∈ l, stub.nextErr e.1 = none) (acc : List HospitalData) :
    scanLoop c stub p l acc =
      (acc ++ (entries.filter (fun kr => hasAccess kr.2.AllowedHospitals p)).map Prod.snd,
        none) := by
  induction h generalizing acc with
  | nil => simp [scanLoop]
  | @cons e kr rest entries hhead _ ih =>
    obtain ⟨k, v⟩ := e
    have hk : stub.nextErr k = none := hnext (k, v) (List.mem_cons_self _ _)
    have hrest : ∀ x ∈ rest, stub.nextErr x.1 = none :=
      fun x hx => hnext x (List.mem_cons_of_mem _ hx)
    have hv : c.Unmarshal v = .ok kr.2 := hhead.2
    rw [scanLoop]
    simp only [hk, hv]
    by_cases ha : hasAccess kr.2.AllowedHospitals p = true
    · simp [ha, ih hrest]
    · simp [ha, ih hrest]

theorem GetAllData_decoded {β : Type} (c : Codec β) (stub : Stub β) (w : World β)
    (p : String) (entries : List (String × HospitalData))
    (h : List.Forall₂ (DecodesTo c) w entries)
    (hscan : stub.rangeErr = none) (hnext : ∀ e ∈ w, stub.nextErr e.1 = none) :
    GetAllData c stub w p =
      (((entries.filter (fun kr => hasAccess kr.2.AllowedHospitals p)).map Prod.snd,
        none), w) := by
  simp [GetAllData, Stub.GetStateByRange, hscan, scanLoop_decoded c stub p w entries h hnext]

theorem filter_hasAccess_eq (p : String) (entries : List (String × HospitalData)) :
    entries.filter (fun kr => hasAccess kr.2.AllowedHospitals p) =
      entries.filter (fun kr => decide (isAuthorized kr.2.AllowedHospitals p)) := by
  apply List.filter_congr
  intro kr _
  by_cases h : hasAccess kr.2.AllowedHospitals p = true
  · simp [h, (hasAccess_iff_isAuthorized _ _).1 h]
  · have h2 : ¬ isAuthorized kr.2.AllowedHospitals p :=
      fun h3 => h ((hasAccess_iff_isAuthorized _ _).2 h3)
    simp [h, h2]

theorem decoded_of_mem {β : Type} (c : Codec β) (l : List (String × β))
    (entries : List (String × HospitalData)) (h : List.Forall₂ (DecodesTo c) l entries)
    (e : String × β) (he : e ∈ l) : ∃ kr ∈ entries, DecodesTo c e kr := by
  induction h with
  | nil => simp at he
  | @cons a kr rest entries hhead _ ih =>
    rcases List.mem_cons.1 he with rfl | hmem
    · exact ⟨kr, List.mem_cons_self _ _, hhead⟩
    · obtain ⟨kr2, hkr2, hd⟩ := ih hmem
      exact ⟨kr2, List.mem_cons_of_mem _ hkr2, hd⟩

theorem RequestAccess_world {β : Type} (c : Codec β) (stub : Stub β) (w : World β)
    (dataID p : String) : (RequestAccess c stub w dataID p).2 = w := by
  unfold RequestAccess
  repeat' split
  all_goals rfl

theorem GetData_world {β : Type} (c : Codec β) (stub : Stub β) (w : World β)
    (dataID p : String) : (GetData c stub w dataID p).2 = w := by
  unfold GetData
  repeat' split
  all_goals rfl

theorem GetAllData_world {β : Type} (c : Codec β) (stub : Stub β) (w : World β)
    (p : String) : (GetAllData c stub w p).2 = w := by
  unfold GetAllData
  split <;> rfl

/-! ## Access evaluation (C1) -/

/-- C1: the access evaluation performed inside `RequestAccess`, `GetData` and
`GetAllData` is the reference definition `isAuthorized`: for every allow-list
and party the code's check holds iff some comma-separated element equals the
party after trimming; for a record stored under `dataID`, `RequestAccess`
returns that verdict, `GetData` returns the record or the permission error
according to it, and one turn of the `GetAllData` loop appends the record
according to it.  With the allow-list `"B, C ,D"`, `"C"` is authorized and
neither `" C"` nor `"c"` is. -/
theorem access_evaluation_is_reference {β : Type} (c : Codec β) (stub : Stub β)
    (w : World β) (dataID party : String) (dataJSON : β) (hospitalData : HospitalData)
    (hget : stub.GetState w dataID = .ok (some dataJSON))
    (hdec : c.Unmarshal dataJSON = .ok hospitalData) :
    (∀ allowed p : String, hasAccess allowed p = true ↔ isAuthorized allowed p) ∧
    (RequestAccess c stub w dataID party).1 =
      (decide (isAuthorized hospitalData.AllowedHospitals party), none) ∧
    (GetData c stub w dataID party).1 =
      (if isAuthorized hospitalData.AllowedHospitals party then (some hospitalData, none)
       else (none, some ("hospital " ++ party ++
          " does not have permission to access data " ++ dataID))) ∧
    (∀ (key : String) (rest : List (String × β)) (acc : List HospitalData),
      stub.nextErr key = none →
      scanLoop c stub party ((key, dataJSON) :: rest) acc =
        scanLoop c stub party rest
          (if isAuthorized hospitalData.AllowedHospitals party then acc ++ [hospitalData]
           else acc)) ∧
    (hasAccess "B, C ,D" "C" = true ∧ hasAccess "B, C ,D" " C" = false ∧
      hasAccess "B, C ,D" "c" = false) := by
  refine ⟨hasAccess_iff_isAuthorized, ?_, ?_, ?_, by decide⟩
  · unfold RequestAccess
    rw [hget]; simp only [hdec]
    by_cases h : hasAccess hospitalData.AllowedHospitals party = true
    · simp [h, (hasAccess_iff_isAuthorized _ _).1 h]
    · have h2 : ¬ isAuthorized hospitalData.AllowedHospitals party :=
        fun h3 => h ((hasAccess_iff_isAuthorized _ _).2 h3)
      simp [h, h2]
  · unfold GetData
    rw [hget]; simp only [hdec]
    by_cases h : hasAccess hospitalData.AllowedHospitals party = true
    · simp [h, (hasAccess_iff_isAuthorized _ _).1 h]
    · have h2 : ¬ isAuthorized hospitalData.AllowedHospitals party :=
        fun h3 => h ((hasAccess_iff_isAuthorized _ _).2 h3)
      simp [h, h2]
  · intro key rest acc hnext
    rw [scanLoop]; simp only [hnext, hdec]
    by_cases h : hasAccess hospitalData.AllowedHospitals party = true
    · simp [h, (hasAccess_iff_isAuthorized _ _).1 h]
    · have h2 : ¬ isAuthorized hospitalData.AllowedHospitals party :=
        fun h3 => h ((hasAccess_iff_isAuthorized _ _).2 h3)
      simp [h, h2]

/-- Witness for C1: the record `recBCD` stored under `"d1"`, asked for by `"C"`. -/
theorem access_evaluation_is_reference_witness :
    Stub.reliable.GetState worldBCD "d1" = .ok (some (.encoded recBCD)) ∧
    storedCodec.Unmarshal (.encoded recBCD) = .ok recBCD ∧
    (RequestAccess storedCodec Stub.reliable worldBCD "d1" "C").1 =
      (decide (isAuthorized recBCD.AllowedHospitals "C"), none) ∧
    (RequestAccess storedCodec Stub.reliable worldBCD "d1" "C").1 = (true, none) :=
  ⟨rfl, rfl,
    (access_evaluation_is_reference storedCodec Stub.reliable worldBCD "d1" "C"
      (.encoded recBCD) recBCD rfl rfl).2.1,
    by decide⟩

/-! ## Agreement of the read paths (C2, C3) -/

/-- C2: with the read of `dataID` succeeding, `RequestAccess` returns `true`
with no error iff `GetData` succeeds and returns a record; `RequestAccess`
returns `false` with no error iff `GetData` fails with the permission error;
and when `dataID` is absent or its value does not deserialize, both fail, with
the same error. -/
theorem RequestAccess_agrees_with_GetData {β : Type} (c : Codec β) (stub : Stub β)
    (w : World β) (dataID p : String) (hread : stub.getStateErr dataID = none) :
    ((RequestAccess c stub w dataID p).1 = (true, none) ↔
      ∃ r, (GetData c stub w dataID p).1 = (some r, none)) ∧
    ((RequestAccess c stub w dataID p).1 = (false, none) ↔
      (GetData c stub w dataID p).1 = (none, some ("hospital " ++ p ++
        " does not have permission to access data " ++ dataID))) ∧
    ((w.get dataID = none ∨ ∃ b err, w.get dataID = some b ∧ c.Unmarshal b = .error err) →
      ∃ e, (RequestAccess c stub w dataID p).1 = (false, some e) ∧
        (GetData c stub w dataID p).1 = (none, some e)) := by
  cases hget : w.get dataID with
  | none =>
    rw [RequestAccess_absent c stub w dataID p hread hget,
      GetData_absent c stub w dataID p hread hget]
    refine ⟨by simp, ?_, fun _ => ⟨_, rfl, rfl⟩⟩
    simpa using notFound_ne_forbidden dataID p dataID
  | some b =>
    cases hdec : c.Unmarshal b with
    | error err =>
      rw [RequestAccess_undecodable c stub w dataID p b err hread hget hdec,
        GetData_undecodable c stub w dataID p b err hread hget hdec]
      refine ⟨by simp, ?_, fun _ => ⟨_, rfl, rfl⟩⟩
      simpa using unmarshalFailed_ne_forbidden err p dataID
    | ok r =>
      rw [RequestAccess_stored c stub w dataID p b r hread hget hdec]
      cases h : hasAccess r.AllowedHospitals p with
      | true =>
        rw [GetData_granted c stub w dataID p b r hread hget hdec h]
        simp [hdec]
      | false =>
        rw [GetData_denied c stub w dataID p b r hread hget hdec h]
        simp [hdec]

/-- Witness for C2: the record `recBCD` stored under `"d1"`, asked for by `"C"`. -/
theorem RequestAccess_agrees_with_GetData_witness :
    (Stub.reliable : Stub Stored).getStateErr "d1" = none ∧
    ((RequestAccess storedCodec Stub.reliable worldBCD "d1" "C").1 = (true, none) ↔
      ∃ r, (GetData storedCodec Stub.reliable worldBCD "d1" "C").1 = (some r, none)) ∧
    (RequestAccess storedCodec Stub.reliable worldBCD "d1" "C").1 = (true, none) :=
  ⟨rfl, (RequestAccess_agrees_with_GetData storedCodec Stub.reliable worldBCD "d1" "C" rfl).1,
    by decide⟩

/-- C3, as amended: on a world state whose values all deserialize (the read
of `dataID` and the range scan succeeding), for the record stored under
`dataID` and every party, `RequestAccess` returns `true` iff the sequence
returned by `GetAllData`, which returns no error, includes that record. -/
theorem RequestAccess_iff_listed {β : Type} (c : Codec β) (stub : Stub β) (w : World β)
    (dataID p : String) (b : β) (r : HospitalData)
    (hread : stub.getStateErr dataID = none) (hscan : stub.rangeErr = none)
    (hnext : ∀ e ∈ w, stub.nextErr e.1 = none)
    (hdec : ∀ e ∈ w, ∃ r, c.Unmarshal e.2 = .ok r)
    (hget : w.get dataID = some b) (hrec : c.Unmarshal b = .ok r) :
    ((RequestAccess c stub w dataID p).1 = (true, none) ↔
      r ∈ (GetAllData c stub w p).1.1) ∧
    (GetAllData c stub w p).1.2 = none := by
  obtain ⟨entries, hent⟩ := exists_decoded c w hdec
  rw [GetAllData_decoded c stub w p entries hent hscan hnext,
    RequestAccess_stored c stub w dataID p b r hread hget hrec]
  refine ⟨?_, rfl⟩
  constructor
  · intro h
    have ha : hasAccess r.AllowedHospitals p = true := by simpa using h
    obtain ⟨kr, hkr, hd⟩ := decoded_of_mem c w entries hent (dataID, b)
      (World.mem_of_get w dataID b hget)
    have hkr2 : kr.2 = r := by
      have h1 := hd.2
      rw [hrec] at h1
      exact (Except.ok.inj h1).symm
    simp only [List.mem_map, List.mem_filter]
    exact ⟨kr, ⟨hkr, by rw [hkr2]; exact ha⟩, hkr2⟩
  · intro h
    simp only [List.mem_map, List.mem_filter] at h
    obtain ⟨kr, ⟨_, ha⟩, hkr2⟩ := h
    rw [hkr2] at ha
    simp [ha]

/-- Witness for C3 as amended: `R3` in the world state of the enumeration
example, asked for by `"X"`. -/
theorem RequestAccess_iff_listed_witness :
    (worldXY.get "r3" = some (.encoded R3) ∧ storedCodec.Unmarshal (.encoded R3) = .ok R3) ∧
    (((RequestAccess storedCodec Stub.reliable worldXY "r3" "X").1 = (true, none) ↔
      R3 ∈ (GetAllData storedCodec Stub.reliable worldXY "X").1.1) ∧
    (GetAllData storedCodec Stub.reliable worldXY "X").1.2 = none) ∧
    (RequestAccess storedCodec Stub.reliable worldXY "r3" "X").1 = (true, none) :=
  ⟨⟨rfl, rfl⟩,
    RequestAccess_iff_listed storedCodec Stub.reliable worldXY "r3" "X" (.encoded R3) R3
      rfl rfl (fun _ _ => rfl)
      (by
        intro e he
        simp only [worldXY, List.mem_cons, List.mem_singleton, List.not_mem_nil, or_false] at he
        rcases he with rfl | rfl | rfl
        · exact ⟨R1, rfl⟩
        · exact ⟨R2, rfl⟩
        · exact ⟨R3, rfl⟩)
      rfl rfl,
    by decide⟩

/-- Counterexample to C3 as stated: in `worldBroken` the record `recBCD` is
stored under `"d1"` and `RequestAccess` returns `true` for `"C"`, yet the value
under `"d2"` does not deserialize, so `GetAllData` fails and its result does not
include the record. -/
theorem RequestAccess_true_not_listed :
    worldBroken.get "d1" = some (.encoded recBCD) ∧
    storedCodec.Unmarshal (.encoded recBCD) = .ok recBCD ∧
    ¬ ((RequestAccess storedCodec Stub.reliable worldBroken "d1" "C").1 = (true, none) ↔
      recBCD ∈ (GetAllData storedCodec Stub.reliable worldBroken "C").1.1) :=
  ⟨rfl, rfl, by decide⟩

/-! ## Enumeration (C6) -/

/-- C6: on a world state whose values all deserialize (the range scan
succeeding), `GetAllData` returns, with no error, the stored records whose
allow-list authorizes the requester: the entries of the world state, decoded in
place, filtered by `isAuthorized`, so each authorized entry appears once and in
the order of the world state, which is ascending key order; the result is empty,
and not an error, when the world state is empty or no record authorizes the
requester.  With `R1`, `R2`, `R3` stored, `"X"` gets exactly `R1, R3` and `"Z"`
gets nothing. -/
theorem GetAllData_filters {β : Type} (c : Codec β) (stub : Stub β) (w : World β)
    (p : String) (hscan : stub.rangeErr = none)
    (hnext : ∀ e ∈ w, stub.nextErr e.1 = none)
    (hdec : ∀ e ∈ w, ∃ r, c.Unmarshal e.2 = .ok r) :
    (∃ entries : List (String × HospitalData),
      List.Forall₂ (DecodesTo c) w entries ∧
      (GetAllData c stub w p).1 =
        ((entries.filter (fun kr => decide (isAuthorized kr.2.AllowedHospitals p))).map
          Prod.snd, none) ∧
      (w.Ordered →
        ((entries.filter (fun kr => decide (isAuthorized kr.2.AllowedHospitals p))).map
          Prod.fst).Pairwise (fun a b => a.data < b.data)) ∧
      ((w = [] ∨ ∀ kr ∈ entries, ¬ isAuthorized kr.2.AllowedHospitals p) →
        (GetAllData c stub w p).1 = ([], none))) ∧
    (GetAllData storedCodec Stub.reliable worldXY "X").1 = ([R1, R3], none) ∧
    (GetAllData storedCodec Stub.reliable worldXY "Z").1 = ([], none) := by
  refine ⟨?_, by decide, by decide⟩
  obtain ⟨entries, hent⟩ := exists_decoded c w hdec
  have hres := GetAllData_decoded c stub w p entries hent hscan hnext
  rw [filter_hasAccess_eq] at hres
  refine ⟨entries, hent, by rw [hres], ?_, ?_⟩
  · intro hord
    have hsub : ((entries.filter
        (fun kr => decide (isAuthorized kr.2.AllowedHospitals p))).map Prod.fst).Sublist
        (w.map Prod.fst) := by
      rw [← decoded_keys c w entries hent]
      exact (List.filter_sublist entries).map Prod.fst
    exact List.Pairwise.sublist hsub hord
  · intro hnone
    rw [hres]
    rcases hnone with hw | hno
    · subst hw
      cases hent
      rfl
    · have : entries.filter (fun kr => decide (isAuthorized kr.2.AllowedHospitals p)) = [] := by
        rw [List.filter_eq_nil_iff]
        intro kr hkr
        simpa using hno kr hkr
      rw [this]
      rfl

/-- Witness for C6: the three records of the example, enumerated for `"X"`. -/
theorem GetAllData_filters_witness :
    (Stub.reliable : Stub Stored).rangeErr = none ∧
    (∀ e ∈ worldXY, (Stub.reliable : Stub Stored).nextErr e.1 = none) ∧
    (∀ e ∈ worldXY, ∃ r, storedCodec.Unmarshal e.2 = .ok r) ∧
    worldXY.Ordered ∧
    (∃ entries : List (String × HospitalData),
      List.Forall₂ (DecodesTo storedCodec) worldXY entries ∧
      (GetAllData storedCodec Stub.reliable worldXY "X").1 =
        ((entries.filter (fun kr => decide (isAuthorized kr.2.AllowedHospitals "X"))).map
          Prod.snd, none)) ∧
    (GetAllData storedCodec Stub.reliable worldXY "X").1 = ([R1, R3], none) :=
  have hdec : ∀ e ∈ worldXY, ∃ r, storedCodec.Unmarshal e.2 = .ok r := by
    intro e he
    simp only [worldXY, List.mem_cons, List.mem_singleton, List.not_mem_nil, or_false] at he
    rcases he with rfl | rfl | rfl
    · exact ⟨R1, rfl⟩
    · exact ⟨R2, rfl⟩
    · exact ⟨R3, rfl⟩
  ⟨rfl, fun _ _ => rfl, hdec, by unfold World.Ordered; decide,
    (GetAllData_filters storedCodec Stub.reliable worldXY "X" rfl (fun _ _ => rfl) hdec).1.imp
      (fun _ h => ⟨h.1, h.2.1⟩),
    by decide⟩

/-! ## Creation (C4, C7, C8) -/

/-- C4: create-once.  When `dataID` is absent from the world state and the
read, the serialisation and the write succeed, `ShareData` succeeds; and in the
world state it leaves, every later `ShareData` with the same id, whatever the
owner, pointer, description and allow-list (the ones of the first call
included), fails with the error `data with ID ... already exists` and changes
nothing. -/
theorem ShareData_create_once {β : Type} (c : Codec β) (stub : Stub β) (w : World β)
    (dataID hospitalA ipfsHash description allowedHospitals : String) (dataJSON : β)
    (hread : stub.getStateErr dataID = none) (habsent : w.get dataID = none)
    (hmar : c.Marshal ⟨dataID, hospitalA, ipfsHash, description, allowedHospitals⟩ =
      .ok dataJSON)
    (hwrite : stub.putStateErr dataID dataJSON = none) :
    (ShareData c stub w dataID hospitalA ipfsHash description allowedHospitals).1 = none ∧
    (∀ (later : Stub β) (owner pointer text allowed : String),
      later.getStateErr dataID = none →
      ShareData c later
          (ShareData c stub w dataID hospitalA ipfsHash description allowedHospitals).2
          dataID owner pointer text allowed =
        (some ("data with ID " ++ dataID ++ " already exists"),
          (ShareData c stub w dataID hospitalA ipfsHash description allowedHospitals).2)) ∧
    ShareData c stub
        (ShareData c stub w dataID hospitalA ipfsHash description allowedHospitals).2
        dataID hospitalA ipfsHash description allowedHospitals =
      (some ("data with ID " ++ dataID ++ " already exists"),
        (ShareData c stub w dataID hospitalA ipfsHash description allowedHospitals).2) := by
  rw [ShareData_written c stub w _ _ _ _ _ dataJSON hread habsent hmar hwrite]
  have hpresent : (w.put dataID dataJSON).get dataID = some dataJSON :=
    World.get_put_self w dataID dataJSON
  refine ⟨rfl, ?_, ?_⟩
  · intro later owner pointer text allowed hlater
    exact ShareData_duplicate c later _ _ _ _ _ _ dataJSON hlater hpresent
  · exact ShareData_duplicate c stub _ _ _ _ _ _ dataJSON hread hpresent

/-- Witness for C4: `recBCD` shared into the empty world state. -/
theorem ShareData_create_once_witness :
    ((Stub.reliable : Stub Stored).getStateErr "d1" = none ∧
      World.get ([] : World Stored) "d1" = none ∧
      storedCodec.Marshal ⟨"d1", "A", "hash", "notes", "B, C ,D"⟩ = .ok (.encoded recBCD) ∧
      (Stub.reliable : Stub Stored).putStateErr "d1" (.encoded recBCD) = none) ∧
    (ShareData storedCodec Stub.reliable [] "d1" "A" "hash" "notes" "B, C ,D").1 = none ∧
    (ShareData storedCodec Stub.reliable [] "d1" "A" "hash" "notes" "B, C ,D").2 = worldBCD ∧
    (ShareData storedCodec Stub.reliable worldBCD "d1" "Q" "other" "text" "B").1 =
      some "data with ID d1 already exists" :=
  ⟨⟨rfl, rfl, rfl, rfl⟩,
    (ShareData_create_once storedCodec Stub.reliable [] "d1" "A" "hash" "notes" "B, C ,D"
      (.encoded recBCD) rfl rfl rfl rfl).1,
    by decide, by decide⟩

/-- C7: round trip.  After a successful `ShareData`, under a codec that loses
nothing, `GetData` on the same id by any requester the allow-list authorizes
returns, with no error, the record whose five fields are the arguments of
`ShareData`. -/
theorem ShareData_GetData_roundtrip {β : Type} (c : Codec β) (stub reader : Stub β)
    (w : World β) (dataID hospitalA ipfsHash description allowedHospitals requester : String)
    (hc : c.Faithful)
    (hshared :
      (ShareData c stub w dataID hospitalA ipfsHash description allowedHospitals).1 = none)
    (hread : reader.getStateErr dataID = none)
    (hauth : isAuthorized allowedHospitals requester) :
    (GetData c reader
        (ShareData c stub w dataID hospitalA ipfsHash description allowedHospitals).2
        dataID requester).1 =
      (some ⟨dataID, hospitalA, ipfsHash, description, allowedHospitals⟩, none) := by
  obtain ⟨b, hb, hback⟩ := hc ⟨dataID, hospitalA, ipfsHash, description, allowedHospitals⟩
  rcases ShareData_cases c stub w dataID hospitalA ipfsHash description allowedHospitals with
    ⟨err, _, h⟩ | ⟨existing, _, _, h⟩ | ⟨err, _, _, _, h⟩ | ⟨dataJSON, err, _, _, _, _, h⟩ |
    ⟨dataJSON, _, _, hmar, _, h⟩
  · rw [h] at hshared; simp at hshared
  · rw [h] at hshared; simp at hshared
  · rw [h] at hshared; simp at hshared
  · rw [h] at hshared; simp at hshared
  · rw [hb] at hmar
    have hEq : b = dataJSON := Except.ok.inj hmar
    subst hEq
    rw [h]
    rw [GetData_granted c reader (w.put dataID b) dataID requester b
      ⟨dataID, hospitalA, ipfsHash, description, allowedHospitals⟩ hread
      (World.get_put_self w dataID b) hback ((hasAccess_iff_isAuthorized _ _).2 hauth)]

/-- The concrete codec loses nothing. -/
theorem storedCodec_faithful : storedCodec.Faithful :=
  fun r => ⟨.encoded r, rfl, rfl⟩

/-- Witness for C7: `recBCD` shared into the empty world state and read back by `"D"`. -/
theorem ShareData_GetData_roundtrip_witness :
    (storedCodec.Faithful ∧
      (ShareData storedCodec Stub.reliable [] "d1" "A" "hash" "notes" "B, C ,D").1 = none ∧
      (Stub.reliable : Stub Stored).getStateErr "d1" = none ∧
      isAuthorized "B, C ,D" "D") ∧
    (GetData storedCodec Stub.reliable
        (ShareData storedCodec Stub.reliable [] "d1" "A" "hash" "notes" "B, C ,D").2
        "d1" "D").1 = (some ⟨"d1", "A", "hash", "notes", "B, C ,D"⟩, none) :=
  ⟨⟨storedCodec_faithful, by decide, rfl, by decide⟩,
    ShareData_GetData_roundtrip storedCodec Stub.reliable Stub.reliable [] "d1" "A" "hash"
      "notes" "B, C ,D" "D" storedCodec_faithful (by decide) rfl (by decide)⟩

/-- C8: `ShareData` changes the world state at `dataID` only.  On success the
serialized record is written under `dataID`, which was absent, in one write,
and every other key holds what it held; whenever `ShareData` returns an error
the world state is as it was; each of a failed read, an id already present, a
failed serialisation and a failed write makes it return an error; so a value
already stored under `dataID` is never overwritten. -/
theorem ShareData_frame {β : Type} (c : Codec β) (stub : Stub β) (w : World β)
    (dataID hospitalA ipfsHash description allowedHospitals : String) :
    ((ShareData c stub w dataID hospitalA ipfsHash description allowedHospitals).1 = none →
      ∃ dataJSON,
        c.Marshal ⟨dataID, hospitalA, ipfsHash, description, allowedHospitals⟩ = .ok dataJSON ∧
        w.get dataID = none ∧
        (ShareData c stub w dataID hospitalA ipfsHash description allowedHospitals).2 =
          w.put dataID dataJSON ∧
        ∀ key : String,
          (ShareData c stub w dataID hospitalA ipfsHash description allowedHospitals).2.get key =
            if key = dataID then some dataJSON else w.get key) ∧
    ((ShareData c stub w dataID hospitalA ipfsHash description allowedHospitals).1 ≠ none →
      (ShareData c stub w dataID hospitalA ipfsHash description allowedHospitals).2 = w) ∧
    (((∃ err, stub.getStateErr dataID = some err) ∨ (∃ existing, w.get dataID = some existing) ∨
        (∃ err, c.Marshal ⟨dataID, hospitalA, ipfsHash, description, allowedHospitals⟩ =
          .error err) ∨
        (∃ dataJSON err,
          c.Marshal ⟨dataID, hospitalA, ipfsHash, description, allowedHospitals⟩ = .ok dataJSON ∧
          stub.putStateErr dataID dataJSON = some err)) →
      (ShareData c stub w dataID hospitalA ipfsHash description allowedHospitals).1 ≠ none) ∧
    (∀ existing, w.get dataID = some existing →
      (ShareData c stub w dataID hospitalA ipfsHash description allowedHospitals).2 = w ∧
      (ShareData c stub w dataID hospitalA ipfsHash description allowedHospitals).2.get dataID =
        some existing) := by
  rcases ShareData_cases c stub w dataID hospitalA ipfsHash description allowedHospitals with
    ⟨err, hread, h⟩ | ⟨existing, hread, hget, h⟩ | ⟨err, hread, hget, hmar, h⟩ |
    ⟨dataJSON, err, hread, hget, hmar, hwrite, h⟩ | ⟨dataJSON, hread, hget, hmar, hwrite, h⟩
  · rw [h]
    refine ⟨by simp, fun _ => rfl, by simp, fun existing hex => ⟨rfl, hex⟩⟩
  · rw [h]
    refine ⟨by simp, fun _ => rfl, by simp, fun existing hex => ⟨rfl, hex⟩⟩
  · rw [h]
    refine ⟨by simp, fun _ => rfl, by simp, fun existing hex => ⟨rfl, hex⟩⟩
  · rw [h]
    refine ⟨by simp, fun _ => rfl, by simp, fun existing hex => ⟨rfl, hex⟩⟩
  · rw [h]
    refine ⟨fun _ => ⟨dataJSON, hmar, hget, rfl, fun key => World.get_put w dataID key dataJSON⟩,
      by simp, ?_, ?_⟩
    · rintro (⟨err, he⟩ | ⟨existing, he⟩ | ⟨err, he⟩ | ⟨b, err, hb, he⟩)
      · rw [hread] at he; simp at he
      · rw [hget] at he; simp at he
      · rw [hmar] at he; simp at he
      · rw [hmar] at hb
        have hEq : dataJSON = b := Except.ok.inj hb
        subst hEq
        rw [hwrite] at he; simp at he
    · intro existing hex
      rw [hget] at hex; simp at hex

/-- Witness for C8: sharing `recBCD` into the empty world state writes it under
`"d1"`; sharing under `"d1"` again fails and leaves `worldBCD` as it was. -/
theorem ShareData_frame_witness :
    (∃ dataJSON,
      storedCodec.Marshal ⟨"d1", "A", "hash", "notes", "B, C ,D"⟩ = .ok dataJSON ∧
      World.get ([] : World Stored) "d1" = none ∧
      (ShareData storedCodec Stub.reliable [] "d1" "A" "hash" "notes" "B, C ,D").2 =
        World.put [] "d1" dataJSON ∧
      ∀ key : String,
        (ShareData storedCodec Stub.reliable [] "d1" "A" "hash" "notes" "B, C ,D").2.get key =
          if key = "d1" then some dataJSON else World.get ([] : World Stored) key) ∧
    (ShareData storedCodec Stub.reliable worldBCD "d1" "Q" "other" "text" "B").2 = worldBCD :=
  ⟨(ShareData_frame storedCodec Stub.reliable [] "d1" "A" "hash" "notes" "B, C ,D").1
      (by decide),
    (ShareData_frame storedCodec Stub.reliable worldBCD "d1" "Q" "other" "text" "B").2.1
      (by decide)⟩

/-! ## Denial and absence (C5, C9) -/

/-- C5: denial does not leak.  When the record stored under `dataID` does not
authorize the requester (the read succeeding), `GetData` returns no record and
the permission error, whose text is made of the requester and `dataID` only; so
two world states whose records under `dataID` both deny the requester give the
same `GetData` result, whatever their owner, pointer, description and
allow-list. -/
theorem GetData_denial_no_leak {β : Type} (c : Codec β) (stub1 stub2 : Stub β)
    (w1 w2 : World β) (dataID requester : String) (b1 b2 : β) (r1 r2 : HospitalData)
    (hread1 : stub1.getStateErr dataID = none) (hread2 : stub2.getStateErr dataID = none)
    (hget1 : w1.get dataID = some b1) (hget2 : w2.get dataID = some b2)
    (hdec1 : c.Unmarshal b1 = .ok r1) (hdec2 : c.Unmarshal b2 = .ok r2)
    (hdeny1 : ¬ isAuthorized r1.AllowedHospitals requester)
    (hdeny2 : ¬ isAuthorized r2.AllowedHospitals requester) :
    (GetData c stub1 w1 dataID requester).1 =
      (none, some ("hospital " ++ requester ++
        " does not have permission to access data " ++ dataID)) ∧
    (GetData c stub1 w1 dataID requester).1 = (GetData c stub2 w2 dataID requester).1 := by
  have h1 : hasAccess r1.AllowedHospitals requester = false := by
    cases h : hasAccess r1.AllowedHospitals requester with
    | false => rfl
    | true => exact absurd ((hasAccess_iff_isAuthorized _ _).1 h) hdeny1
  have h2 : hasAccess r2.AllowedHospitals requester = false := by
    cases h : hasAccess r2.AllowedHospitals requester with
    | false => rfl
    | true => exact absurd ((hasAccess_iff_isAuthorized _ _).1 h) hdeny2
  rw [GetData_denied c stub1 w1 dataID requester b1 r1 hread1 hget1 hdec1 h1,
    GetData_denied c stub2 w2 dataID requester b2 r2 hread2 hget2 hdec2 h2]
  exact ⟨rfl, rfl⟩

/-- Witness for C5: `recBCD` and `recB`, which differ in owner, pointer,
description and allow-list, both deny `"Z"`. -/
theorem GetData_denial_no_leak_witness :
    (worldBCD.get "d1" = some (.encoded recBCD) ∧ worldB.get "d1" = some (.encoded recB) ∧
      ¬ isAuthorized recBCD.AllowedHospitals "Z" ∧ ¬ isAuthorized recB.AllowedHospitals "Z") ∧
    ((GetData storedCodec Stub.reliable worldBCD "d1" "Z").1 =
        (none, some ("hospital " ++ "Z" ++ " does not have permission to access data " ++ "d1")) ∧
      (GetData storedCodec Stub.reliable worldBCD "d1" "Z").1 =
        (GetData storedCodec Stub.reliable worldB "d1" "Z").1) ∧
    (GetData storedCodec Stub.reliable worldB "d1" "Z").1 =
      (none, some "hospital Z does not have permission to access data d1") :=
  ⟨⟨rfl, rfl, by decide, by decide⟩,
    GetData_denial_no_leak storedCodec Stub.reliable Stub.reliable worldBCD worldB "d1" "Z"
      (.encoded recBCD) (.encoded recB) recBCD recB rfl rfl rfl rfl rfl rfl
      (by decide) (by decide),
    by decide⟩

/-- C9: when no value is stored under `dataID` (the read succeeding),
`RequestAccess` returns `false` and `GetData` returns no record, both with the
error `data with ID ... does not exist`; and that error is never the permission
error of `GetData`, whatever the requester and the id. -/
theorem absent_id_not_found {β : Type} (c : Codec β) (stub : Stub β) (w : World β)
    (dataID p r : String) (hread : stub.getStateErr dataID = none)
    (habsent : w.get dataID = none) :
    (RequestAccess c stub w dataID p).1 =
      (false, some ("data with ID " ++ dataID ++ " does not exist")) ∧
    (GetData c stub w dataID r).1 =
      (none, some ("data with ID " ++ dataID ++ " does not exist")) ∧
    (∀ requester other : String,
      "data with ID " ++ dataID ++ " does not exist" ≠
        "hospital " ++ requester ++ " does not have permission to access data " ++ other) := by
  rw [RequestAccess_absent c stub w dataID p hread habsent,
    GetData_absent c stub w dataID r hread habsent]
  exact ⟨rfl, rfl, fun requester other => notFound_ne_forbidden dataID requester other⟩

/-- Witness for C9: the id `"d9"` in the world state holding only `"d1"`. -/
theorem absent_id_not_found_witness :
    ((Stub.reliable : Stub Stored).getStateErr "d9" = none ∧ worldBCD.get "d9" = none) ∧
    (RequestAccess storedCodec Stub.reliable worldBCD "d9" "B").1 =
      (false, some ("data with ID " ++ "d9" ++ " does not exist")) ∧
    (GetData storedCodec Stub.reliable worldBCD "d9" "C").1 =
      (none, some "data with ID d9 does not exist") ∧
    (GetData storedCodec Stub.reliable worldBCD "d1" "Z").1 =
      (none, some "hospital Z does not have permission to access data d1") :=
  ⟨⟨rfl, rfl⟩,
    (absent_id_not_found storedCodec Stub.reliable worldBCD "d9" "B" "C" rfl rfl).1,
    by decide, by decide⟩

/-! ## Queries (C10) -/

/-- C10: queries are pure.  `RequestAccess`, `GetData` and `GetAllData` return
the world state they were given, and calling any of them again with the same
arguments on the world state it returned gives the same result, value and error
alike. -/
theorem queries_are_pure {β : Type} (c : Codec β) (stub : Stub β) (w : World β)
    (dataID p : String) :
    ((RequestAccess c stub w dataID p).2 = w ∧ (GetData c stub w dataID p).2 = w ∧
      (GetAllData c stub w p).2 = w) ∧
    RequestAccess c stub (RequestAccess c stub w dataID p).2 dataID p =
      RequestAccess c stub w dataID p ∧
    GetData c stub (GetData c stub w dataID p).2 dataID p = GetData c stub w dataID p ∧
    GetAllData c stub (GetAllData c stub w p).2 p = GetAllData c stub w p := by
  refine ⟨⟨RequestAccess_world c stub w dataID p, GetData_world c stub w dataID p,
    GetAllData_world c stub w p⟩, ?_, ?_, ?_⟩
  · rw [RequestAccess_world]
  · rw [GetData_world]
  · rw [GetAllData_world]

/-! ## The end-to-end scenario (C11) -/

/-- C11: the end-to-end scenario, under any codec that loses nothing and with
no substrate failure.  On the empty world state `ShareData` of `rec1` succeeds;
in the world state it leaves, `RequestAccess` is `true` for `"HospB"` and `false`
for `"HospD"`, `GetData` returns the full record to `"HospC"` and the permission
error to `"HospD"`, and `GetAllData` returns exactly `rec1` to `"HospB"` and
nothing to `"HospZ"`. -/
theorem end_to_end_scenario {β : Type} (c : Codec β) (hc : c.Faithful) :
    (ShareData c Stub.reliable [] "rec1" "HospA" "hash123" "notes" "HospB, HospC").1 = none ∧
    (RequestAccess c Stub.reliable
      (ShareData c Stub.reliable [] "rec1" "HospA" "hash123" "notes" "HospB, HospC").2
      "rec1" "HospB").1 = (true, none) ∧
    (RequestAccess c Stub.reliable
      (ShareData c Stub.reliable [] "rec1" "HospA" "hash123" "notes" "HospB, HospC").2
      "rec1" "HospD").1 = (false, none) ∧
    (GetData c Stub.reliable
      (ShareData c Stub.reliable [] "rec1" "HospA" "hash123" "notes" "HospB, HospC").2
      "rec1" "HospC").1 =
        (some ⟨"rec1", "HospA", "hash123", "notes", "HospB, HospC"⟩, none) ∧
    (GetData c Stub.reliable
      (ShareData c Stub.reliable [] "rec1" "HospA" "hash123" "notes" "HospB, HospC").2
      "rec1" "HospD").1 =
        (none, some "hospital HospD does not have permission to access data rec1") ∧
    (GetAllData c Stub.reliable
      (ShareData c Stub.reliable [] "rec1" "HospA" "hash123" "notes" "HospB, HospC").2
      "HospB").1 = ([rec1], none) ∧
    (GetAllData c Stub.reliable
      (ShareData c Stub.reliable [] "rec1" "HospA" "hash123" "notes" "HospB, HospC").2
      "HospZ").1 = ([], none) := by
  obtain ⟨b, hb, hback⟩ := hc rec1
  have hshare : ShareData c Stub.reliable [] "rec1" "HospA" "hash123" "notes" "HospB, HospC" =
      (none, [("rec1", b)]) :=
    ShareData_written c Stub.reliable [] _ _ _ _ _ b rfl rfl hb rfl
  have hget : World.get [("rec1", b)] "rec1" = some b := by simp [World.get]
  have hent : List.Forall₂ (DecodesTo c) [("rec1", b)] [("rec1", rec1)] :=
    List.Forall₂.cons ⟨rfl, hback⟩ List.Forall₂.nil
  rw [hshare]
  refine ⟨rfl, ?_, ?_, ?_, ?_, ?_, ?_⟩
  · rw [RequestAccess_stored c Stub.reliable _ "rec1" "HospB" b rec1 rfl hget hback]
    exact congrArg (fun v => (v, none)) (by decide : hasAccess rec1.AllowedHospitals "HospB" = true)
  · rw [RequestAccess_stored c Stub.reliable _ "rec1" "HospD" b rec1 rfl hget hback]
    exact congrArg (fun v => (v, none)) (by decide : hasAccess rec1.AllowedHospitals "HospD" = false)
  · rw [GetData_granted c Stub.reliable _ "rec1" "HospC" b rec1 rfl hget hback (by decide)]
    rfl
  · rw [GetData_denied c Stub.reliable _ "rec1" "HospD" b rec1 rfl hget hback (by decide)]
    exact congrArg (fun v => (none, some v)) (by decide)
  · rw [GetAllData_decoded c Stub.reliable _ "HospB" _ hent rfl (fun _ _ => rfl)]
    exact congrArg (fun v => (v, none)) (by decide)
  · rw [GetAllData_decoded c Stub.reliable _ "HospZ" _ hent rfl (fun _ _ => rfl)]
    exact congrArg (fun v => (v, none)) (by decide)

/-- Witness for C11: the scenario under the concrete codec. -/
theorem end_to_end_scenario_witness :
    storedCodec.Faithful ∧
    (ShareData storedCodec Stub.reliable [] "rec1" "HospA" "hash123" "notes"
      "HospB, HospC").2 = [("rec1", .encoded rec1)] ∧
    (RequestAccess storedCodec Stub.reliable
      (ShareData storedCodec Stub.reliable [] "rec1" "HospA" "hash123" "notes"
        "HospB, HospC").2 "rec1" "HospB").1 = (true, none) :=
  ⟨storedCodec_faithful, by decide, (end_to_end_scenario storedCodec storedCodec_faithful).2.1⟩


/-! ## More on the access check and the enumeration loop -/

theorem isAuthorized_iff_mem (allowed party : String) :
    isAuthorized allowed party ↔ party.data ∈ trimmedElements allowed := by
  simp [isAuthorized, trimmedElements]

theorem hasAccess_iff_mem (allowed party : String) :
    hasAccess allowed party = true ↔ party.data ∈ trimmedElements allowed :=
  (hasAccess_iff_isAuthorized allowed party).trans (isAuthorized_iff_mem allowed party)

theorem hasAccess_eq_false_of_not_mem (allowed party : String)
    (h : party.data ∉ trimmedElements allowed) : hasAccess allowed party = false := by
  cases hv : hasAccess allowed party with
  | false => rfl
  | true => exact absurd ((hasAccess_iff_mem allowed party).1 hv) h

theorem scanLoop_mem {β : Type} (c : Codec β) (stub : Stub β) (p : String)
    (l : List (String × β)) (acc : List HospitalData) (x : HospitalData)
    (hx : x ∈ (scanLoop c stub p l acc).1) :
    x ∈ acc ∨ hasAccess x.AllowedHospitals p = true := by
  induction l generalizing acc with
  | nil => exact Or.inl (by simpa [scanLoop] using hx)
  | cons e rest ih =>
    obtain ⟨k, v⟩ := e
    rw [scanLoop] at hx
    cases hk : stub.nextErr k with
    | some err => simp [hk] at hx
    | none =>
      cases hv : c.Unmarshal v with
      | error err => simp [hk, hv] at hx
      | ok r =>
        by_cases ha : hasAccess r.AllowedHospitals p = true
        · simp only [hk, hv, ha, if_true] at hx
          rcases ih (acc ++ [r]) hx with hmem | hacc
          · rcases List.mem_append.1 hmem with h1 | h2
            · exact Or.inl h1
            · rw [List.mem_singleton.1 h2]
              exact Or.inr ha
          · exact Or.inr hacc
        · simp only [hk, hv, ha] at hx
          exact ih acc hx

theorem GetAllData_mem {β : Type} (c : Codec β) (stub : Stub β) (w : World β)
    (p : String) (x : HospitalData) (hx : x ∈ (GetAllData c stub w p).1.1) :
    hasAccess x.AllowedHospitals p = true := by
  unfold GetAllData at hx
  cases hr : stub.GetStateByRange w with
  | error err => simp [hr] at hx
  | ok it =>
    simp only [hr] at hx
    rcases scanLoop_mem c stub p it [] x hx with h | h
    · simp at h
    · exact h

theorem scanLoop_undecodable {β : Type} (c : Codec β) (stub : Stub β) (p : String)
    (l : List (String × β)) (acc : List HospitalData)
    (hbad : ∃ e ∈ l, ∃ err, c.Unmarshal e.2 = .error err) :
    ∃ err, scanLoop c stub p l acc = ([], some err) := by
  induction l generalizing acc with
  | nil => obtain ⟨e, he, _⟩ := hbad; simp at he
  | cons e rest ih =>
    obtain ⟨k, v⟩ := e
    rw [scanLoop]
    cases hk : stub.nextErr k with
    | some err => exact ⟨err, rfl⟩
    | none =>
      cases hv : c.Unmarshal v with
      | error err => exact ⟨err, rfl⟩
      | ok r =>
        have hrest : ∃ e ∈ rest, ∃ err, c.Unmarshal e.2 = .error err := by
          obtain ⟨e, he, err, herr⟩ := hbad
          rcases List.mem_cons.1 he with rfl | hmem
          · rw [hv] at herr; simp at herr
          · exact ⟨e, hmem, err, herr⟩
        by_cases ha : hasAccess r.AllowedHospitals p = true
        · simp only [ha, if_true]
          exact ih _ hrest
        · simp only [ha]
          exact ih _ hrest

/-! ## Allow-lists without a valid entry (C12) -/

/-- C12, as amended: a record whose allow-list has only elements that are empty
after trimming is accessible to no party other than the empty string.  For such
a record stored under `dataID` (the read succeeding) and every non-empty party,
`RequestAccess` returns `false`, `GetData` fails with the permission error and
the result of `GetAllData` does not include the record.  The allow-lists `""`,
`" "` and `" , ,"` are of that kind. -/
theorem no_valid_entries_denies {β : Type} (c : Codec β) (stub : Stub β) (w : World β)
    (dataID party : String) (b : β) (r : HospitalData)
    (hread : stub.getStateErr dataID = none) (hget : w.get dataID = some b)
    (hdec : c.Unmarshal b = .ok r) (hnone : NoValidEntries r.AllowedHospitals)
    (hparty : party ≠ "") :
    (RequestAccess c stub w dataID party).1 = (false, none) ∧
    (GetData c stub w dataID party).1 =
      (none, some ("hospital " ++ party ++
        " does not have permission to access data " ++ dataID)) ∧
    r ∉ (GetAllData c stub w party).1.1 ∧
    (NoValidEntries "" ∧ NoValidEntries " " ∧ NoValidEntries " , ,") := by
  have hdeny : hasAccess r.AllowedHospitals party = false := by
    apply hasAccess_eq_false_of_not_mem
    intro hmem
    exact hparty (String.ext (hnone _ hmem))
  refine ⟨?_, ?_, ?_, by decide⟩
  · rw [RequestAccess_stored c stub w dataID party b r hread hget hdec, hdeny]
  · rw [GetData_denied c stub w dataID party b r hread hget hdec hdeny]
  · intro hmem
    rw [GetAllData_mem c stub w party r hmem] at hdeny
    exact Bool.noConfusion hdeny

/-- Witness for C12 as amended: `recNobody`, whose allow-list is empty, asked
for by `"B"`. -/
theorem no_valid_entries_denies_witness :
    (worldNobody.get "e1" = some (.encoded recNobody) ∧
      NoValidEntries recNobody.AllowedHospitals ∧ "B" ≠ "") ∧
    (RequestAccess storedCodec Stub.reliable worldNobody "e1" "B").1 = (false, none) ∧
    recNobody ∉ (GetAllData storedCodec Stub.reliable worldNobody "B").1.1 :=
  have h := no_valid_entries_denies storedCodec Stub.reliable worldNobody "e1" "B"
    (.encoded recNobody) recNobody rfl rfl rfl (by decide) (by decide)
  ⟨⟨rfl, by decide, by decide⟩, h.1, h.2.2.1⟩

/-- Counterexample to C12 as stated: the allow-list of `recNobody` is empty, so
it has no valid entry, yet for the party `""` `RequestAccess` returns `true`,
`GetData` returns the record and `GetAllData` lists it. -/
theorem no_valid_entries_admits_empty_party :
    NoValidEntries recNobody.AllowedHospitals ∧
    worldNobody.get "e1" = some (.encoded recNobody) ∧
    (RequestAccess storedCodec Stub.reliable worldNobody "e1" "").1 = (true, none) ∧
    (GetData storedCodec Stub.reliable worldNobody "e1" "").1 = (some recNobody, none) ∧
    (GetAllData storedCodec Stub.reliable worldNobody "").1 = ([recNobody], none) :=
  ⟨by decide, rfl, by decide, by decide, by decide⟩

/-! ## All-or-nothing enumeration (C13) -/

/-- C13: all-or-nothing enumeration.  On a world state holding at least one
value that does not deserialize, `GetAllData` returns an error and no record,
for every requester and whatever precedes that value. -/
theorem GetAllData_all_or_nothing {β : Type} (c : Codec β) (stub : Stub β) (w : World β)
    (p : String) (hbad : ∃ e ∈ w, ∃ err, c.Unmarshal e.2 = .error err) :
    (GetAllData c stub w p).1.1 = [] ∧ ∃ err, (GetAllData c stub w p).1.2 = some err := by
  unfold GetAllData
  cases hr : stub.GetStateByRange w with
  | error err => exact ⟨rfl, err, rfl⟩
  | ok it =>
    have hit : it = w := by
      unfold Stub.GetStateByRange at hr
      cases hs : stub.rangeErr with
      | some e => rw [hs] at hr; simp at hr
      | none => rw [hs] at hr; exact (Except.ok.inj hr).symm
    subst hit
    obtain ⟨err, herr⟩ := scanLoop_undecodable c stub p it [] hbad
    show (scanLoop c stub p it [], it).1.1 = [] ∧
      ∃ err, (scanLoop c stub p it [], it).1.2 = some err
    rw [herr]
    exact ⟨rfl, err, rfl⟩

/-- Witness for C13: in `worldBroken` the record `recBCD`, which authorizes
`"C"`, precedes the value that does not deserialize. -/
theorem GetAllData_all_or_nothing_witness :
    (∃ e ∈ worldBroken, ∃ err, storedCodec.Unmarshal e.2 = .error err) ∧
    hasAccess recBCD.AllowedHospitals "C" = true ∧
    ((GetAllData storedCodec Stub.reliable worldBroken "C").1.1 = [] ∧
      ∃ err, (GetAllData storedCodec Stub.reliable worldBroken "C").1.2 = some err) :=
  have hbad : ∃ e ∈ worldBroken, ∃ err, storedCodec.Unmarshal e.2 = .error err :=
    ⟨("d2", .malformed "\x7b"), by simp [worldBroken], _, rfl⟩
  ⟨hbad, by decide, GetAllData_all_or_nothing storedCodec Stub.reliable worldBroken "C" hbad⟩


/-! ## Sequences of calls -/

theorem Call.run_get {β : Type} (c : Codec β) (stub : Stub β) (w : World β) (call : Call)
    (k : String) (v : β) (hk : w.get k = some v) : (call.run c stub w).get k = some v := by
  cases call with
  | shareData dataID hospitalA ipfsHash description allowedHospitals =>
    show (ShareData c stub w dataID hospitalA ipfsHash description allowedHospitals).2.get k =
      some v
    rcases ShareData_cases c stub w dataID hospitalA ipfsHash description allowedHospitals with
      ⟨err, _, h⟩ | ⟨existing, _, _, h⟩ | ⟨err, _, _, _, h⟩ | ⟨dataJSON, err, _, _, _, _, h⟩ |
      ⟨dataJSON, _, hget, _, _, h⟩
    · rw [h]; exact hk
    · rw [h]; exact hk
    · rw [h]; exact hk
    · rw [h]; exact hk
    · rw [h]
      have hne : k ≠ dataID := by
        intro heq
        rw [heq, hget] at hk
        simp at hk
      show (w.put dataID dataJSON).get k = some v
      rw [World.get_put_other w dataID k dataJSON hne]
      exact hk
  | requestAccess dataID hospitalB =>
    show (RequestAccess c stub w dataID hospitalB).2.get k = some v
    rw [RequestAccess_world]; exact hk
  | getData dataID requestingHospital =>
    show (GetData c stub w dataID requestingHospital).2.get k = some v
    rw [GetData_world]; exact hk
  | getAllData requestingHospital =>
    show (GetAllData c stub w requestingHospital).2.get k = some v
    rw [GetAllData_world]; exact hk

/-! ## Immutability (C14) -/

/-- C14: records are immutable.  A key holding a value holds exactly that value
after any finite sequence of calls of the four transactions, whatever their
arguments and whichever substrate calls fail. -/
theorem records_are_immutable {β : Type} (c : Codec β) (w : World β)
    (calls : List (Stub β × Call)) (k : String) (v : β) (hk : w.get k = some v) :
    (execute c w calls).get k = some v := by
  induction calls generalizing w with
  | nil => exact hk
  | cons sc rest ih =>
    obtain ⟨stub, call⟩ := sc
    exact ih (call.run c stub w) (Call.run_get c stub w call k v hk)

/-- Witness for C14: the calls of `sampleCalls`, one of which tries to share
under `"r1"` again, leave `R1` under `"r1"` in `worldXY`. -/
theorem records_are_immutable_witness :
    worldXY.get "r1" = some (.encoded R1) ∧
    (execute storedCodec worldXY sampleCalls).get "r1" = some (.encoded R1) :=
  ⟨rfl, records_are_immutable storedCodec worldXY sampleCalls "r1" (.encoded R1) rfl⟩


/-! ## Key/id consistency of reachable world states -/

theorem World.get_eq_none_iff {β : Type} (w : World β) (k : String) :
    w.get k = none ↔ k ∉ w.map Prod.fst := by
  induction w with
  | nil => simp [World.get]
  | cons e rest ih =>
    obtain ⟨k2, v2⟩ := e
    by_cases h : k2 = k
    · simp [World.get, h]
    · have h2 : ¬ k = k2 := fun h3 => h h3.symm
      simp [World.get, h, h2, ih]

theorem World.get_of_mem {β : Type} (w : World β) (k : String) (b : β)
    (hnodup : (w.map Prod.fst).Nodup) (hmem : (k, b) ∈ w) : w.get k = some b := by
  induction w with
  | nil => simp at hmem
  | cons e rest ih =>
    obtain ⟨k2, v2⟩ := e
    have hnd : k2 ∉ rest.map Prod.fst ∧ (rest.map Prod.fst).Nodup :=
      List.nodup_cons.1 hnodup
    rcases List.mem_cons.1 hmem with heq | hrest
    · have h1 : k = k2 := congrArg Prod.fst heq
      have h2 : b = v2 := congrArg Prod.snd heq
      simp [World.get, h1, h2]
    · have hne : ¬ k2 = k := by
        intro h
        apply hnd.1
        rw [h]
        exact List.mem_map.2 ⟨(k, b), hrest, rfl⟩
      simp only [World.get, hne, if_false]
      exact ih hnd.2 hrest

theorem World.put_perm {β : Type} (w : World β) (k : String) (v : β)
    (habsent : w.get k = none) : (w.put k v).Perm ((k, v) :: w) := by
  induction w with
  | nil => exact List.Perm.refl _
  | cons e rest ih =>
    obtain ⟨k2, v2⟩ := e
    have hne : ¬ k2 = k := by
      intro h
      simp [World.get, h] at habsent
    have hne2 : ¬ k = k2 := fun h => hne h.symm
    have hrest : World.get rest k = none := by
      simpa [World.get, hne] using habsent
    by_cases hlt : k.data < k2.data
    · simp [World.put, hlt]
    · simp only [World.put, hlt, hne2, if_false]
      exact ((ih hrest).cons (k2, v2)).trans (List.Perm.swap _ _ _)

theorem Consistent_nil {β : Type} (c : Codec β) : World.Consistent c ([] : World β) :=
  ⟨fun e he => by simp at he, by simp⟩

theorem Consistent_put {β : Type} (c : Codec β) (w : World β) (k : String) (v : β)
    (r : HospitalData) (hw : World.Consistent c w) (habsent : w.get k = none)
    (hdec : c.Unmarshal v = .ok r) (hid : r.DataID = k) :
    World.Consistent c (w.put k v) := by
  have hperm := World.put_perm w k v habsent
  constructor
  · intro e he
    rcases List.mem_cons.1 (hperm.mem_iff.1 he) with rfl | hold
    · exact ⟨r, hdec, hid⟩
    · exact hw.1 e hold
  · have hkeys : ((w.put k v).map Prod.fst).Perm (k :: w.map Prod.fst) := by
      simpa using hperm.map Prod.fst
    rw [hkeys.nodup_iff]
    exact List.nodup_cons.2 ⟨(World.get_eq_none_iff w k).1 habsent, hw.2⟩

theorem Call.run_consistent {β : Type} (c : Codec β) (hc : c.Faithful) (stub : Stub β)
    (w : World β) (call : Call) (hw : World.Consistent c w) :
    World.Consistent c (call.run c stub w) := by
  cases call with
  | shareData dataID hospitalA ipfsHash description allowedHospitals =>
    show World.Consistent c
      (ShareData c stub w dataID hospitalA ipfsHash description allowedHospitals).2
    rcases ShareData_cases c stub w dataID hospitalA ipfsHash description allowedHospitals with
      ⟨err, _, h⟩ | ⟨existing, _, _, h⟩ | ⟨err, _, _, _, h⟩ | ⟨dataJSON, err, _, _, _, _, h⟩ |
      ⟨dataJSON, _, hget, hmar, _, h⟩
    · rw [h]; exact hw
    · rw [h]; exact hw
    · rw [h]; exact hw
    · rw [h]; exact hw
    · rw [h]
      obtain ⟨b, hb, hback⟩ := hc ⟨dataID, hospitalA, ipfsHash, description, allowedHospitals⟩
      rw [hb] at hmar
      have hEq : b = dataJSON := Except.ok.inj hmar
      subst hEq
      exact Consistent_put c w dataID b _ hw hget hback rfl
  | requestAccess dataID hospitalB =>
    show World.Consistent c (RequestAccess c stub w dataID hospitalB).2
    rw [RequestAccess_world]; exact hw
  | getData dataID requestingHospital =>
    show World.Consistent c (GetData c stub w dataID requestingHospital).2
    rw [GetData_world]; exact hw
  | getAllData requestingHospital =>
    show World.Consistent c (GetAllData c stub w requestingHospital).2
    rw [GetAllData_world]; exact hw

theorem execute_consistent {β : Type} (c : Codec β) (hc : c.Faithful) (w : World β)
    (calls : List (Stub β × Call)) (hw : World.Consistent c w) :
    World.Consistent c (execute c w calls) := by
  induction calls generalizing w with
  | nil => exact hw
  | cons sc rest ih =>
    obtain ⟨stub, call⟩ := sc
    exact ih (call.run c stub w) (Call.run_consistent c hc stub w call hw)

theorem entry_of_decoded {β : Type} (c : Codec β) (l : List (String × β))
    (entries : List (String × HospitalData)) (h : List.Forall₂ (DecodesTo c) l entries)
    (kr : String × HospitalData) (hkr : kr ∈ entries) : ∃ e ∈ l, DecodesTo c e kr := by
  induction h with
  | nil => simp at hkr
  | @cons a kr2 rest entries hhead _ ih =>
    rcases List.mem_cons.1 hkr with rfl | hmem
    · exact ⟨a, List.mem_cons_self _ _, hhead⟩
    · obtain ⟨e, he, hd⟩ := ih hmem
      exact ⟨e, List.mem_cons_of_mem _ he, hd⟩

theorem scanLoop_outcome {β : Type} (c : Codec β) (stub : Stub β) (p : String)
    (l : List (String × β)) (entries : List (String × HospitalData))
    (h : List.Forall₂ (DecodesTo c) l entries) (acc : List HospitalData) :
    scanLoop c stub p l acc =
        (acc ++ (entries.filter (fun kr => hasAccess kr.2.AllowedHospitals p)).map Prod.snd,
          none) ∨
      ∃ err, scanLoop c stub p l acc = ([], some err) := by
  induction h generalizing acc with
  | nil => exact Or.inl (by simp [scanLoop])
  | @cons e kr rest entries hhead _ ih =>
    obtain ⟨k, v⟩ := e
    have hv : c.Unmarshal v = .ok kr.2 := hhead.2
    rw [scanLoop]
    cases hk : stub.nextErr k with
    | some err => exact Or.inr ⟨err, rfl⟩
    | none =>
      simp only [hv]
      by_cases ha : hasAccess kr.2.AllowedHospitals p = true
      · rcases ih (acc ++ [kr.2]) with hgood | hbad
        · exact Or.inl (by simp [ha, hgood])
        · exact Or.inr (by simpa [ha] using hbad)
      · rcases ih acc with hgood | hbad
        · exact Or.inl (by simp [ha, hgood])
        · exact Or.inr (by simpa [ha] using hbad)


theorem RequestAccess_true_iff {β : Type} (c : Codec β) (stub : Stub β) (w : World β)
    (dataID p : String) (hread : stub.getStateErr dataID = none) :
    (RequestAccess c stub w dataID p).1 = (true, none) ↔
      ∃ b r, w.get dataID = some b ∧ c.Unmarshal b = .ok r ∧
        hasAccess r.AllowedHospitals p = true := by
  cases hget : w.get dataID with
  | none =>
    rw [RequestAccess_absent c stub w dataID p hread hget]
    simp
  | some b =>
    cases hdec : c.Unmarshal b with
    | error err =>
      rw [RequestAccess_undecodable c stub w dataID p b err hread hget hdec]
      simp [hdec]
    | ok r =>
      rw [RequestAccess_stored c stub w dataID p b r hread hget hdec]
      simp [hdec]

theorem GetData_ok_iff {β : Type} (c : Codec β) (stub : Stub β) (w : World β)
    (dataID p : String) (hread : stub.getStateErr dataID = none) :
    (∃ found, (GetData c stub w dataID p).1 = (some found, none)) ↔
      ∃ b r, w.get dataID = some b ∧ c.Unmarshal b = .ok r ∧
        hasAccess r.AllowedHospitals p = true := by
  cases hget : w.get dataID with
  | none =>
    rw [GetData_absent c stub w dataID p hread hget]
    simp
  | some b =>
    cases hdec : c.Unmarshal b with
    | error err =>
      rw [GetData_undecodable c stub w dataID p b err hread hget hdec]
      simp [hdec]
    | ok r =>
      cases h : hasAccess r.AllowedHospitals p with
      | true =>
        rw [GetData_granted c stub w dataID p b r hread hget hdec h]
        simp [hdec, h]
      | false =>
        rw [GetData_denied c stub w dataID p b r hread hget hdec h]
        simp [hdec, h]

theorem GetAllData_lists_iff {β : Type} (c : Codec β) (stub : Stub β) (w : World β)
    (dataID p : String) (hw : World.Consistent c w) (hscan : stub.rangeErr = none)
    (hnext : ∀ key, stub.nextErr key = none) :
    (∃ r ∈ (GetAllData c stub w p).1.1, r.DataID = dataID) ↔
      ∃ b r, w.get dataID = some b ∧ c.Unmarshal b = .ok r ∧
        hasAccess r.AllowedHospitals p = true := by
  obtain ⟨entries, hent⟩ := exists_decoded c w
    (fun e he => (hw.1 e he).imp (fun _ h => h.1))
  rw [GetAllData_decoded c stub w p entries hent hscan (fun e _ => hnext e.1)]
  constructor
  · rintro ⟨x, hx, hid⟩
    simp only [List.mem_map, List.mem_filter] at hx
    obtain ⟨kr, ⟨hkr, ha⟩, hkx⟩ := hx
    obtain ⟨e, he, hd⟩ := entry_of_decoded c w entries hent kr hkr
    obtain ⟨r, hr, hrid⟩ := hw.1 e he
    have hrx : r = x := by
      have h1 := hd.2
      rw [hr, hkx] at h1
      exact Except.ok.inj h1
    have hkey : e.1 = dataID := by rw [← hrid, hrx, hid]
    have hmem : (dataID, e.2) ∈ w := by rw [← hkey]; exact he
    refine ⟨e.2, x, World.get_of_mem w dataID e.2 hw.2 hmem, ?_, ?_⟩
    · rw [hr, hrx]
    · rw [← hkx]; exact ha
  · rintro ⟨b, r, hget, hdec, ha⟩
    obtain ⟨kr, hkr, hd⟩ := decoded_of_mem c w entries hent (dataID, b)
      (World.mem_of_get w dataID b hget)
    have hkr2 : kr.2 = r := by
      have h1 := hd.2
      rw [hdec] at h1
      exact (Except.ok.inj h1).symm
    obtain ⟨r2, hr2, hrid⟩ := hw.1 (dataID, b) (World.mem_of_get w dataID b hget)
    have hr : r2 = r := by
      rw [hdec] at hr2
      exact (Except.ok.inj hr2).symm
    refine ⟨r, ?_, by rw [← hr]; exact hrid⟩
    simp only [List.mem_map, List.mem_filter]
    exact ⟨kr, ⟨hkr, by rw [hkr2]; exact ha⟩, hkr2⟩

theorem GetAllData_ids_nodup {β : Type} (c : Codec β) (stub : Stub β) (w : World β)
    (p : String) (hw : World.Consistent c w) :
    ((GetAllData c stub w p).1.1.map HospitalData.DataID).Nodup := by
  obtain ⟨entries, hent⟩ := exists_decoded c w
    (fun e he => (hw.1 e he).imp (fun _ h => h.1))
  unfold GetAllData Stub.GetStateByRange
  cases hs : stub.rangeErr with
  | some err => simp
  | none =>
    show (((scanLoop c stub p w []).1).map HospitalData.DataID).Nodup
    rcases scanLoop_outcome c stub p w entries hent [] with hgood | ⟨err, hbad⟩
    · rw [hgood]
      have hids : ∀ kr ∈ entries, kr.2.DataID = kr.1 := by
        intro kr hkr
        obtain ⟨e, he, hd⟩ := entry_of_decoded c w entries hent kr hkr
        obtain ⟨r, hr, hrid⟩ := hw.1 e he
        have h1 := hd.2
        rw [hr] at h1
        rw [← Except.ok.inj h1, hrid, hd.1]
      have hmap : ((entries.filter (fun kr => hasAccess kr.2.AllowedHospitals p)).map
          Prod.snd).map HospitalData.DataID =
          (entries.filter (fun kr => hasAccess kr.2.AllowedHospitals p)).map Prod.fst := by
        rw [List.map_map]
        apply List.map_congr_left
        intro kr hkr
        exact hids kr (List.mem_of_mem_filter hkr)
      simp only [List.nil_append]
      rw [hmap]
      have hsub : ((entries.filter (fun kr => hasAccess kr.2.AllowedHospitals p)).map
          Prod.fst).Sublist (w.map Prod.fst) := by
        rw [← decoded_keys c w entries hent]
        exact (List.filter_sublist entries).map Prod.fst
      exact hsub.nodup hw.2
    · rw [hbad]
      simp

/-! ## Reachable world states (C17, C18) -/

/-- C17: on every world state reached from the empty one by a finite sequence
of calls of the four transactions, under a codec that loses nothing and with the
substrate calls of the reads succeeding, `GetAllData` returns no error and the
three read paths agree: `RequestAccess` on `dataID` returns `true` iff `GetData`
on `dataID` returns a record iff the result of `GetAllData` contains a record
whose `DataID` is `dataID`. -/
theorem reachable_read_paths_agree {β : Type} (c : Codec β) (hc : c.Faithful)
    (calls : List (Stub β × Call)) (stub : Stub β) (dataID p : String)
    (hread : stub.getStateErr dataID = none) (hscan : stub.rangeErr = none)
    (hnext : ∀ key, stub.nextErr key = none) :
    (GetAllData c stub (execute c [] calls) p).1.2 = none ∧
    ((RequestAccess c stub (execute c [] calls) dataID p).1 = (true, none) ↔
      ∃ r, (GetData c stub (execute c [] calls) dataID p).1 = (some r, none)) ∧
    ((RequestAccess c stub (execute c [] calls) dataID p).1 = (true, none) ↔
      ∃ r ∈ (GetAllData c stub (execute c [] calls) p).1.1, r.DataID = dataID) := by
  have hw : World.Consistent c (execute c [] calls) :=
    execute_consistent c hc [] calls (Consistent_nil c)
  refine ⟨?_, ?_, ?_⟩
  · obtain ⟨entries, hent⟩ := exists_decoded c (execute c [] calls)
      (fun e he => (hw.1 e he).imp (fun _ h => h.1))
    rw [GetAllData_decoded c stub _ p entries hent hscan (fun e _ => hnext e.1)]
  · rw [RequestAccess_true_iff c stub _ dataID p hread, GetData_ok_iff c stub _ dataID p hread]
  · rw [RequestAccess_true_iff c stub _ dataID p hread,
      GetAllData_lists_iff c stub _ dataID p hw hscan hnext]

/-- Witness for C17: the world state reached by `sampleCalls`, read for `"r1"`
by `"X"`. -/
theorem reachable_read_paths_agree_witness :
    storedCodec.Faithful ∧
    execute storedCodec [] sampleCalls = [("r1", .encoded R1), ("r2", .encoded R2)] ∧
    ((GetAllData storedCodec Stub.reliable (execute storedCodec [] sampleCalls) "X").1.2 =
        none ∧
      ((RequestAccess storedCodec Stub.reliable (execute storedCodec [] sampleCalls)
          "r1" "X").1 = (true, none) ↔
        ∃ r, (GetData storedCodec Stub.reliable (execute storedCodec [] sampleCalls)
          "r1" "X").1 = (some r, none)) ∧
      ((RequestAccess storedCodec Stub.reliable (execute storedCodec [] sampleCalls)
          "r1" "X").1 = (true, none) ↔
        ∃ r ∈ (GetAllData storedCodec Stub.reliable (execute storedCodec [] sampleCalls)
          "X").1.1, r.DataID = "r1")) ∧
    (RequestAccess storedCodec Stub.reliable (execute storedCodec [] sampleCalls)
      "r1" "X").1 = (true, none) :=
  ⟨storedCodec_faithful, by decide,
    reachable_read_paths_agree storedCodec storedCodec_faithful sampleCalls Stub.reliable
      "r1" "X" rfl rfl (fun _ => rfl),
    by decide⟩

/-- C18: key/id consistency.  On every world state reached from the empty one
by a finite sequence of calls of the four transactions, under a codec that loses
nothing, every stored value deserializes to a record whose `DataID` is the key
it is stored under and no key occurs twice; so the records `GetAllData` returns
have pairwise different `DataID`s. -/
theorem reachable_key_id_consistent {β : Type} (c : Codec β) (hc : c.Faithful)
    (calls : List (Stub β × Call)) :
    (∀ e ∈ execute c [] calls, ∃ r, c.Unmarshal e.2 = .ok r ∧ r.DataID = e.1) ∧
    ((execute c [] calls).map Prod.fst).Nodup ∧
    (∀ (stub : Stub β) (p : String),
      ((GetAllData c stub (execute c [] calls) p).1.1.map HospitalData.DataID).Nodup) := by
  have hw : World.Consistent c (execute c [] calls) :=
    execute_consistent c hc [] calls (Consistent_nil c)
  exact ⟨hw.1, hw.2, fun stub p => GetAllData_ids_nodup c stub _ p hw⟩

/-- Witness for C18: the world state reached by `sampleCalls`. -/
theorem reachable_key_id_consistent_witness :
    storedCodec.Faithful ∧
    execute storedCodec [] sampleCalls = [("r1", .encoded R1), ("r2", .encoded R2)] ∧
    (∀ e ∈ execute storedCodec [] sampleCalls,
      ∃ r, storedCodec.Unmarshal e.2 = .ok r ∧ r.DataID = e.1) :=
  ⟨storedCodec_faithful, by decide,
    (reachable_key_id_consistent storedCodec storedCodec_faithful sampleCalls).1⟩


/-! ## Shape of the trimmed elements -/

theorem splitOnP_no_sep (f : Char → Bool) (xs : List Char) :
    ∀ t ∈ List.splitOnP f xs, ∀ x ∈ t, f x = false := by
  induction xs with
  | nil =>
    intro t ht x hx
    rw [List.splitOnP_nil] at ht
    rw [List.mem_singleton.1 ht] at hx
    simp at hx
  | cons a rest ih =>
    intro t ht x hx
    rw [List.splitOnP_cons] at ht
    by_cases ha : f a = true
    · rw [if_pos ha] at ht
      rcases List.mem_cons.1 ht with h | h
      · rw [h] at hx; simp at hx
      · exact ih t h x hx
    · rw [if_neg ha] at ht
      cases hs : List.splitOnP f rest with
      | nil => exact absurd hs (List.splitOnP_ne_nil f rest)
      | cons hd tl =>
        rw [hs] at ht ih
        simp only [List.modifyHead_cons] at ht
        rcases List.mem_cons.1 ht with h | h
        · rw [h] at hx
          rcases List.mem_cons.1 hx with hxa | hxhd
          · rw [hxa]; simpa using ha
          · exact ih hd (List.mem_cons_self _ _) x hxhd
        · exact ih t (List.mem_cons_of_mem _ h) x hx

theorem head_rdropWhile (f : Char → Bool) (a : Char) (t : List Char) (ha : f a = false) :
    (List.rdropWhile f (a :: t)).head? = some a := by
  induction t using List.reverseRecOn with
  | nil => simp [List.rdropWhile_singleton, ha]
  | append_singleton l x ih =>
    rw [← List.cons_append, List.rdropWhile_concat]
    by_cases hx : f x = true
    · rw [if_pos hx]; exact ih
    · rw [if_neg hx]; rfl

theorem trimmed_no_comma (allowed : String) (element : List Char)
    (h : element ∈ trimmedElements allowed) : ',' ∉ element := by
  obtain ⟨token, htok, rfl⟩ := List.mem_map.1 h
  intro hc
  have h1 : ',' ∈ token :=
    (List.dropWhile_sublist IsSpace).subset
      ((List.rdropWhile_prefix IsSpace (token.dropWhile IsSpace)).sublist.subset hc)
  have h2 := splitOnP_no_sep (fun x => x == ',') allowed.data token htok ',' h1
  simp at h2

theorem trimmed_head_not_space (allowed : String) (element : List Char)
    (h : element ∈ trimmedElements allowed) : element.head?.map IsSpace ≠ some true := by
  obtain ⟨token, _, rfl⟩ := List.mem_map.1 h
  cases hd : token.dropWhile IsSpace with
  | nil => simp
  | cons a t =>
    have ha : IsSpace a = false := by
      have h1 := List.head?_dropWhile_not IsSpace token
      rw [hd] at h1
      simpa using h1
    rw [head_rdropWhile IsSpace a t ha]
    simp [ha]

theorem trimmed_last_not_space (allowed : String) (element : List Char)
    (h : element ∈ trimmedElements allowed) :
    element.getLast?.map IsSpace ≠ some true := by
  obtain ⟨token, _, rfl⟩ := List.mem_map.1 h
  by_cases hne : List.rdropWhile IsSpace (token.dropWhile IsSpace) = []
  · rw [hne]; simp
  · rw [List.getLast?_eq_getLast _ hne]
    have h1 := List.rdropWhile_last_not IsSpace (token.dropWhile IsSpace) hne
    simpa using h1

theorem not_mem_of_neverListed (allowed party : String) (hparty : NeverListed party) :
    party.data ∉ trimmedElements allowed := by
  intro hmem
  rcases hparty with h | h | h
  · exact trimmed_no_comma allowed _ hmem h
  · exact trimmed_head_not_space allowed _ hmem h
  · exact trimmed_last_not_space allowed _ hmem h


theorem RequestAccess_never {β : Type} (c : Codec β) (stub : Stub β) (w : World β)
    (dataID p : String) (h : ∀ allowed, hasAccess allowed p = false) :
    (RequestAccess c stub w dataID p).1.1 = false := by
  unfold RequestAccess
  repeat' split
  all_goals simp_all

theorem GetData_never {β : Type} (c : Codec β) (stub : Stub β) (w : World β)
    (dataID p : String) (h : ∀ allowed, hasAccess allowed p = false) :
    (GetData c stub w dataID p).1.1 = none ∧ (GetData c stub w dataID p).1.2 ≠ none := by
  unfold GetData
  repeat' split
  all_goals simp_all

/-! ## Parties that can never be listed (C19) -/

/-- C19: a party that contains a comma, or begins or ends with a white space
character, is authorized by no allow-list; so for such a party, on every world
state and whatever the substrate does, `RequestAccess` does not return `true`,
`GetData` returns no record and an error, and `GetAllData` returns no record. -/
theorem never_listed_party_is_denied {β : Type} (c : Codec β) (stub : Stub β) (w : World β)
    (dataID party : String) (hparty : NeverListed party) :
    (∀ allowed : String, ¬ isAuthorized allowed party) ∧
    (RequestAccess c stub w dataID party).1.1 = false ∧
    ((GetData c stub w dataID party).1.1 = none ∧
      (GetData c stub w dataID party).1.2 ≠ none) ∧
    (GetAllData c stub w party).1.1 = [] := by
  have hno : ∀ allowed, hasAccess allowed party = false :=
    fun allowed =>
      hasAccess_eq_false_of_not_mem allowed party (not_mem_of_neverListed allowed party hparty)
  refine ⟨?_, RequestAccess_never c stub w dataID party hno,
    GetData_never c stub w dataID party hno, ?_⟩
  · intro allowed hauth
    exact not_mem_of_neverListed allowed party hparty
      ((isAuthorized_iff_mem allowed party).1 hauth)
  · apply List.eq_nil_iff_forall_not_mem.2
    intro x hx
    have h1 := GetAllData_mem c stub w party x hx
    rw [hno] at h1
    exact Bool.noConfusion h1

/-- Witness for C19: the party `" C"`, which begins with a space, on the world
state whose record lists `" C "`. -/
theorem never_listed_party_is_denied_witness :
    NeverListed " C" ∧
    (¬ isAuthorized recBCD.AllowedHospitals " C" ∧
      (RequestAccess storedCodec Stub.reliable worldBCD "d1" " C").1.1 = false ∧
      (GetAllData storedCodec Stub.reliable worldBCD " C").1.1 = []) ∧
    (NeverListed "B,D" ∧ NeverListed "C\t") :=
  have h := never_listed_party_is_denied storedCodec Stub.reliable worldBCD "d1" " C"
    (by decide)
  ⟨by decide, ⟨h.1 _, h.2.1, h.2.2.2⟩, by decide⟩


theorem listed_iff_hasAccess {β : Type} (c : Codec β) (stub : Stub β) (w : World β)
    (dataID p : String) (b : β) (r : HospitalData)
    (hscan : stub.rangeErr = none) (hnext : ∀ key, stub.nextErr key = none)
    (hall : ∀ e ∈ w, ∃ r, c.Unmarshal e.2 = .ok r)
    (hget : w.get dataID = some b) (hdec : c.Unmarshal b = .ok r) :
    r ∈ (GetAllData c stub w p).1.1 ↔ hasAccess r.AllowedHospitals p = true := by
  constructor
  · exact GetAllData_mem c stub w p r
  · intro ha
    obtain ⟨entries, hent⟩ := exists_decoded c w hall
    rw [GetAllData_decoded c stub w p entries hent hscan (fun e _ => hnext e.1)]
    obtain ⟨kr, hkr, hd⟩ := decoded_of_mem c w entries hent (dataID, b)
      (World.mem_of_get w dataID b hget)
    have hkr2 : kr.2 = r := by
      have h1 := hd.2
      rw [hdec] at h1
      exact (Except.ok.inj h1).symm
    simp only [List.mem_map, List.mem_filter]
    exact ⟨kr, ⟨hkr, by rw [hkr2]; exact ha⟩, hkr2⟩

/-! ## Ownership (C16) -/

/-- C16: ownership grants no access.  For two records equal except for the
owner, each stored under `dataID` in a world state whose values all deserialize
(the substrate calls of the reads succeeding), and for every party:
`RequestAccess` returns the same result, `GetData` succeeds for one iff it
succeeds for the other and returns the same error, and `GetAllData` lists one
iff it lists the other; and an owner the allow-list does not authorize is denied
by all three. -/
theorem owner_grants_no_access {β : Type} (c : Codec β) (stub : Stub β) (w1 w2 : World β)
    (dataID party owner1 owner2 pointer description allowed : String) (b1 b2 : β)
    (hread : stub.getStateErr dataID = none) (hscan : stub.rangeErr = none)
    (hnext : ∀ key, stub.nextErr key = none)
    (hall1 : ∀ e ∈ w1, ∃ r, c.Unmarshal e.2 = .ok r)
    (hall2 : ∀ e ∈ w2, ∃ r, c.Unmarshal e.2 = .ok r)
    (hget1 : w1.get dataID = some b1) (hget2 : w2.get dataID = some b2)
    (hdec1 : c.Unmarshal b1 = .ok ⟨dataID, owner1, pointer, description, allowed⟩)
    (hdec2 : c.Unmarshal b2 = .ok ⟨dataID, owner2, pointer, description, allowed⟩) :
    (RequestAccess c stub w1 dataID party).1 = (RequestAccess c stub w2 dataID party).1 ∧
    ((GetData c stub w1 dataID party).1.1.isSome = (GetData c stub w2 dataID party).1.1.isSome ∧
      (GetData c stub w1 dataID party).1.2 = (GetData c stub w2 dataID party).1.2) ∧
    ((⟨dataID, owner1, pointer, description, allowed⟩ : HospitalData) ∈
        (GetAllData c stub w1 party).1.1 ↔
      (⟨dataID, owner2, pointer, description, allowed⟩ : HospitalData) ∈
        (GetAllData c stub w2 party).1.1) ∧
    (¬ isAuthorized allowed owner1 →
      (RequestAccess c stub w1 dataID owner1).1 = (false, none) ∧
      (GetData c stub w1 dataID owner1).1 =
        (none, some ("hospital " ++ owner1 ++
          " does not have permission to access data " ++ dataID)) ∧
      (⟨dataID, owner1, pointer, description, allowed⟩ : HospitalData) ∉
        (GetAllData c stub w1 owner1).1.1) := by
  refine ⟨?_, ?_, ?_, ?_⟩
  · rw [RequestAccess_stored c stub w1 dataID party b1 _ hread hget1 hdec1,
      RequestAccess_stored c stub w2 dataID party b2 _ hread hget2 hdec2]
  · cases h : hasAccess allowed party with
    | true =>
      rw [GetData_granted c stub w1 dataID party b1 _ hread hget1 hdec1 h,
        GetData_granted c stub w2 dataID party b2 _ hread hget2 hdec2 h]
      exact ⟨rfl, rfl⟩
    | false =>
      rw [GetData_denied c stub w1 dataID party b1 _ hread hget1 hdec1 h,
        GetData_denied c stub w2 dataID party b2 _ hread hget2 hdec2 h]
      exact ⟨rfl, rfl⟩
  · rw [listed_iff_hasAccess c stub w1 dataID party b1 _ hscan hnext hall1 hget1 hdec1,
      listed_iff_hasAccess c stub w2 dataID party b2 _ hscan hnext hall2 hget2 hdec2]
  · intro hdeny
    have h : hasAccess allowed owner1 = false := by
      cases hv : hasAccess allowed owner1 with
      | false => rfl
      | true => exact absurd ((hasAccess_iff_isAuthorized _ _).1 hv) hdeny
    refine ⟨?_, ?_, ?_⟩
    · rw [RequestAccess_stored c stub w1 dataID owner1 b1 _ hread hget1 hdec1]
      exact congrArg (fun v => (v, none)) h
    · rw [GetData_denied c stub w1 dataID owner1 b1 _ hread hget1 hdec1 h]
    · rw [listed_iff_hasAccess c stub w1 dataID owner1 b1 _ hscan hnext hall1 hget1 hdec1]
      show ¬ hasAccess allowed owner1 = true
      rw [h]
      exact Bool.noConfusion

/-- Witness for C16: `recBCD`, owned by `"A"`, and `recBCDOwner`, owned by
`"Z"`, asked for by `"C"`; the owner `"A"` is not on the allow-list. -/
theorem owner_grants_no_access_witness :
    (worldBCD.get "d1" = some (.encoded recBCD) ∧
      worldBCDOwner.get "d1" = some (.encoded recBCDOwner) ∧
      ¬ isAuthorized "B, C ,D" "A") ∧
    (RequestAccess storedCodec Stub.reliable worldBCD "d1" "C").1 =
      (RequestAccess storedCodec Stub.reliable worldBCDOwner "d1" "C").1 ∧
    (RequestAccess storedCodec Stub.reliable worldBCD "d1" "A").1 = (false, none) :=
  have hall1 : ∀ e ∈ worldBCD, ∃ r, storedCodec.Unmarshal e.2 = .ok r := by
    intro e he
    simp only [worldBCD, List.mem_singleton] at he
    rw [he]
    exact ⟨recBCD, rfl⟩
  have hall2 : ∀ e ∈ worldBCDOwner, ∃ r, storedCodec.Unmarshal e.2 = .ok r := by
    intro e he
    simp only [worldBCDOwner, List.mem_singleton] at he
    rw [he]
    exact ⟨recBCDOwner, rfl⟩
  have h := owner_grants_no_access storedCodec Stub.reliable worldBCD worldBCDOwner
    "d1" "C" "A" "Z" "hash" "notes" "B, C ,D" (.encoded recBCD) (.encoded recBCDOwner)
    rfl rfl (fun _ => rfl) hall1 hall2 rfl rfl rfl rfl
  ⟨⟨rfl, rfl, by decide⟩, h.1, (h.2.2.2 (by decide)).1⟩


theorem hasAccess_congr (a1 a2 party : String)
    (h : party.data ∈ trimmedElements a1 ↔ party.data ∈ trimmedElements a2) :
    hasAccess a1 party = hasAccess a2 party := by
  rw [Bool.eq_iff_iff, hasAccess_iff_mem, hasAccess_iff_mem]
  exact h

/-! ## The allow-list as a set (C15) -/

/-- C15, as amended: the allow-list is treated as an unordered set.  The
authorization of a party depends only on the set of trimmed elements of the
allow-list: it is the same for two allow-lists with the same set of trimmed
elements, hence unchanged when the comma-separated elements are permuted or one
of them is duplicated; and, for a non-empty party, unchanged when elements that
are empty after trimming are inserted. -/
theorem allowed_is_a_set (a1 a2 party : String) :
    ((∀ element, element ∈ trimmedElements a1 ↔ element ∈ trimmedElements a2) →
      hasAccess a1 party = hasAccess a2 party) ∧
    ((a2.data.splitOn ',').Perm (a1.data.splitOn ',') →
      hasAccess a1 party = hasAccess a2 party) ∧
    ((∃ x ∈ a1.data.splitOn ',', (a2.data.splitOn ',').Perm (x :: a1.data.splitOn ',')) →
      hasAccess a1 party = hasAccess a2 party) ∧
    (∀ blanks : List (List Char),
      (∀ x ∈ blanks, (x.dropWhile IsSpace).rdropWhile IsSpace = []) →
      (a2.data.splitOn ',').Perm (blanks ++ a1.data.splitOn ',') →
      party ≠ "" → hasAccess a1 party = hasAccess a2 party) := by
  refine ⟨fun h => hasAccess_congr a1 a2 party (h _), ?_, ?_, ?_⟩
  · intro hperm
    apply hasAccess_congr
    unfold trimmedElements
    exact ((hperm.map _).mem_iff).symm
  · rintro ⟨x, hx, hperm⟩
    apply hasAccess_congr
    unfold trimmedElements
    rw [(hperm.map _).mem_iff, List.map_cons, List.mem_cons]
    constructor
    · exact fun h => Or.inr h
    · rintro (h | h)
      · rw [h]; exact List.mem_map.2 ⟨x, hx, rfl⟩
      · exact h
  · intro blanks hblanks hperm hparty
    have hne : party.data ≠ [] := fun h => hparty (String.ext h)
    apply hasAccess_congr
    unfold trimmedElements
    rw [(hperm.map _).mem_iff, List.map_append, List.mem_append]
    constructor
    · exact fun h => Or.inr h
    · rintro (h | h)
      · obtain ⟨x, hx, hEq⟩ := List.mem_map.1 h
        rw [hblanks x hx] at hEq
        exact absurd hEq.symm hne
      · exact h

/-- Witness for C15 as amended: `"D,B, C "` permutes the elements of
`"B, C ,D"`, `"B, C ,D,B"` repeats one and `"B,, C , ,D"` inserts two empty
ones; `"C"` is authorized by all four. -/
theorem allowed_is_a_set_witness :
    hasAccess "B, C ,D" "C" = hasAccess "D,B, C " "C" ∧
    hasAccess "B, C ,D" "C" = hasAccess "B, C ,D,B" "C" ∧
    hasAccess "B, C ,D" "C" = hasAccess "B,, C , ,D" "C" ∧
    hasAccess "B, C ,D" "C" = true :=
  ⟨(allowed_is_a_set "B, C ,D" "D,B, C " "C").2.1
      (show List.Perm ["D".data, "B".data, " C ".data] ["B".data, " C ".data, "D".data] from
        @List.perm_append_comm _ ["D".data] ["B".data, " C ".data]),
    (allowed_is_a_set "B, C ,D" "B, C ,D,B" "C").2.2.1
      ⟨"B".data, by decide,
        show List.Perm ["B".data, " C ".data, "D".data, "B".data]
            ["B".data, "B".data, " C ".data, "D".data] from
          @List.perm_append_comm _ ["B".data, " C ".data, "D".data] ["B".data]⟩,
    (allowed_is_a_set "B, C ,D" "B,, C , ,D" "C").2.2.2 ["".data, " ".data]
      (by decide)
      (show List.Perm ["B".data, "".data, " C ".data, " ".data, "D".data]
          (["".data, " ".data] ++ ["B".data, " C ".data, "D".data]) from
        (List.Perm.swap _ _ _).trans
          (List.Perm.cons _ ((List.Perm.cons _ (List.Perm.swap _ _ _)).trans
            (List.Perm.swap _ _ _))))
      (by decide),
    by decide⟩

/-- Counterexample to C15 as stated: `"A,"` is `"A"` with an empty element
inserted, and the party `""` is authorized by `"A,"` and not by `"A"`. -/
theorem empty_element_admits_empty_party :
    "A,".data.splitOn ',' = "A".data.splitOn ',' ++ [[]] ∧
    hasAccess "A" "" = false ∧ hasAccess "A," "" = true := by
  decide

end HospitalContract
